import Mathlib

/-!
Verification development for the google-calendar-linear-sync repository.

The TypeScript sources are shallowly embedded in Lean:
- JS strings stay Lean strings; character-level operations mirror the JS
  regular expressions by deterministic scanners (each regex used by the
  repository is backtracking-free on every input, as argued in comments).
- Timestamps (ISO date-time strings handled through dayjs) are embedded as
  integers counting milliseconds in the configured time zone, which the
  model treats as a fixed offset.  The dayjs diff function truncates toward
  zero, which Int.div matches.
- JS truthiness is modelled explicitly: an optional string is truthy when
  it is present and nonempty, an optional number is truthy when present and
  nonzero, an optional object is truthy when present.
- The random uuidv4 source used by the projector is threaded explicitly as
  a stream of fresh identifiers (a function from a counter to a string).
-/

namespace CalSync

/-! ## JavaScript string and truthiness helpers -/

/-- Character class of the JS regex escape for whitespace and of the set the
JS trim function removes: WhiteSpace plus LineTerminator per ECMAScript. -/
def isJsWs (c : Char) : Bool :=
  c = ' ' || c = '\t' || c = '\n' || c = '\r' || c.toNat = 0x0b || c.toNat = 0x0c ||
  c.toNat = 0x00A0 || c.toNat = 0x1680 ||
  (0x2000 ≤ c.toNat && c.toNat ≤ 0x200A) ||
  c.toNat = 0x2028 || c.toNat = 0x2029 || c.toNat = 0x202F || c.toNat = 0x205F ||
  c.toNat = 0x3000 || c.toNat = 0xFEFF

/-- ASCII lower casing, the folding applied by a JS regex under the i flag
without the u flag for the ASCII literals appearing in this code base. -/
def lowerAscii (c : Char) : Char :=
  if 'A' ≤ c ∧ c ≤ 'Z' then Char.ofNat (c.toNat + 32) else c

/-- Model of the JS String.prototype.trim function on char lists. -/
def jsTrimList (l : List Char) : List Char :=
  ((l.dropWhile isJsWs).reverse.dropWhile isJsWs).reverse

/-- Model of the JS String.prototype.trim function. -/
def jsTrim (s : String) : String := ⟨jsTrimList s.data⟩

/-- Truthiness of an optional JS string: present and nonempty. -/
def strTruthy : Option String → Bool
  | some s => s ≠ ""
  | none => false

/-- Truthiness of an optional JS number: present and nonzero. -/
def numTruthy : Option Int → Bool
  | some n => n ≠ 0
  | none => false

/-- The JS or-else operator on optional strings, where the empty string is
falsy. -/
def jsOrStr (a b : Option String) : Option String :=
  if strTruthy a then a else b

/-- The JS or-else operator on optional timestamps.  Every timestamp that
reaches these expressions in the source is a nonempty ISO string, hence
truthy exactly when present. -/
def tsOr (a b : Option Int) : Option Int :=
  match a with
  | some x => some x
  | none => b

/-- The JS or-else operator on optional numbers, where zero is falsy. -/
def jsOrNum (a b : Option Int) : Option Int :=
  if numTruthy a then a else b

/-! ## Model of src/types.ts -/

/-- Linear workflow states (types.ts LinearIssue state union). -/
inductive LinearState
  | Triage
  | Scheduled
  | Done
  | Canceled
  | Failed
deriving DecidableEq, Repr

/-- Rendering of a LinearState into the string used by TS. -/
def stateName : LinearState → String
  | .Triage => "Triage"
  | .Scheduled => "Scheduled"
  | .Done => "Done"
  | .Canceled => "Canceled"
  | .Failed => "Failed"

/-- Linear estimate buckets (types.ts LinearEstimate). -/
inductive LinearEstimate
  | XS
  | S
  | M
  | L
  | XL
deriving DecidableEq, Repr

/-- Google Calendar event start or end value: an optional dateTime and an
optional all-day date, both embedded as millisecond timestamps. -/
structure GTime where
  dateTime : Option Int
  date : Option Int
deriving DecidableEq, Repr

/-- Private extended properties attached to a calendar event. -/
structure GPriv where
  uid : Option String
  linearId : Option String
  linearIssueId : Option String
deriving DecidableEq, Repr

/-- Wrapper for the extendedProperties object with its optional private
bag. -/
structure GExt where
  priv : Option GPriv
deriving DecidableEq, Repr

/-- Calendar event lifecycle status. -/
inductive EventStatus
  | confirmed
  | cancelled
deriving DecidableEq, Repr

/-- Model of types.ts GCalEvent. -/
structure GCalEvent where
  id : String
  summary : String
  description : Option String
  start : GTime
  endT : GTime
  extendedProperties : Option GExt
  status : EventStatus
deriving DecidableEq, Repr

/-- Accessor for the optional chain extendedProperties private uid. -/
def GCalEvent.privUid (e : GCalEvent) : Option String :=
  (e.extendedProperties.bind (·.priv)).bind (·.uid)

/-- Accessor for the optional chain extendedProperties private
linearIssueId. -/
def GCalEvent.privLinearIssueId (e : GCalEvent) : Option String :=
  (e.extendedProperties.bind (·.priv)).bind (·.linearIssueId)

/-- Model of types.ts LinearIssue.  The estimate is a point count. -/
structure LinearIssue where
  id : String
  title : String
  description : Option String
  state : LinearState
  targetDate : Option Int
  estimate : Option Int
deriving DecidableEq, Repr

/-- The five phases of types.ts Phase. -/
inductive Phase
  | eventOnly
  | linearOnly
  | active
  | completed
  | overdue
deriving DecidableEq, Repr

/-- Model of types.ts CanonicalItem. -/
structure CanonicalItem where
  uid : String
  title : String
  description : Option String
  startTime : Option Int
  endTime : Option Int
  durationMin : Option Int
  estimate : Option LinearEstimate
  linearId : Option String
  gcalId : Option String
  linearState : Option LinearState
  phase : Phase
  lastModified : Int
  currentGCalTitle : Option String
  currentLinearTitle : Option String
deriving DecidableEq, Repr

/-- Operation kinds of types.ts OperationType. -/
inductive OperationType
  | createLinearIssue
  | createGCalEvent
  | patchGCalEvent
  | patchLinearIssue
  | copyEventToHistory
  | createRescheduledEvent
  | createLinearIssueAndUpdateGCal
  | createGCalEventAndUpdateLinear
  | noop
deriving DecidableEq, Repr

/-- Model of types.ts Operation. -/
structure Operation where
  type : OperationType
  item : CanonicalItem
  reason : String
deriving DecidableEq, Repr

/-- Narrow no-break space used between glyph and title. -/
def nnbsp : Char := Char.ofNat 0x202F

/-- The PREFIXES table of types.ts: status glyph plus narrow no-break
space. -/
def PREFIX_TRIAGE : String := String.mk [Char.ofNat 0x1F4E5, nnbsp]

/-- Scheduled prefix of the PREFIXES table. -/
def PREFIX_SCHEDULED : String := String.mk [Char.ofNat 0x1F4C5, nnbsp]

/-- Done prefix of the PREFIXES table. -/
def PREFIX_DONE : String := String.mk [Char.ofNat 0x2705, nnbsp]

/-- Canceled prefix of the PREFIXES table. -/
def PREFIX_CANCELED : String := String.mk [Char.ofNat 0x1F6AB, nnbsp]

/-- Failed prefix of the PREFIXES table. -/
def PREFIX_FAILED : String := String.mk [Char.ofNat 0x274C, nnbsp]

/-- Worked prefix of the PREFIXES table, used for overdue items. -/
def PREFIX_WORKED : String := String.mk [Char.ofNat 0x23F3, nnbsp]

/-- The full PREFIXES table as a list, in declaration order. -/
def PREFIXES_LIST : List String :=
  [PREFIX_TRIAGE, PREFIX_SCHEDULED, PREFIX_DONE, PREFIX_CANCELED,
   PREFIX_FAILED, PREFIX_WORKED]

/-- Character class of the types.ts stripPrefix regular expression: three
emoji code point ranges. -/
def inEmojiRanges (c : Char) : Bool :=
  (0x1F300 ≤ c.toNat && c.toNat ≤ 0x1F9FF) ||
  (0x2600 ≤ c.toNat && c.toNat ≤ 0x26FF) ||
  (0x2700 ≤ c.toNat && c.toNat ≤ 0x27BF)

/-- Model of types.ts stripPrefix: drop one leading emoji-range code point
followed by a narrow no-break space, then trim.  The regex is anchored, has
the u flag, and matches exactly one code point from the ranges followed by
one U+202F, so the replacement is this two-character drop. -/
def stripPrefix (title : String) : String :=
  jsTrim ⟨match title.data with
          | c :: d :: rest =>
              if inEmojiRanges c ∧ d = nnbsp then rest else title.data
          | _ => title.data⟩

/-- Model of types.ts addPrefix: strip, then prepend the new prefix. -/
def addPrefix (title p : String) : String :=
  p ++ stripPrefix title

/-- Model of types.ts ESTIMATE_DURATIONS. -/
def ESTIMATE_DURATIONS : LinearEstimate → Int
  | .XS => 15
  | .S => 30
  | .M => 60
  | .L => 120
  | .XL => 240

/-- Model of types.ts durationToEstimate with its inclusive thresholds. -/
def durationToEstimate (durationMin : Int) : LinearEstimate :=
  if durationMin ≤ 22 then .XS
  else if durationMin ≤ 45 then .S
  else if durationMin ≤ 90 then .M
  else if durationMin ≤ 180 then .L
  else .XL

/-- Model of types.ts estimateToDuration. -/
def estimateToDuration (estimate : LinearEstimate) : Int :=
  ESTIMATE_DURATIONS estimate

/-- Model of types.ts pointsToEstimate, a keyed lookup defaulting to S. -/
def pointsToEstimate (points : Int) : LinearEstimate :=
  if points = 1 then .XS
  else if points = 2 then .S
  else if points = 3 then .M
  else if points = 5 then .L
  else if points = 8 then .XL
  else .S

/-- Model of types.ts estimateToPoints. -/
def estimateToPoints : LinearEstimate → Int
  | .XS => 1
  | .S => 2
  | .M => 3
  | .L => 5
  | .XL => 8

/-- Working hours configuration of types.ts. -/
structure WorkingHours where
  startHour : Int
  endHour : Int
  workingDays : List Int
deriving DecidableEq, Repr

/-- Sync configuration of types.ts, restricted to the fields the embedded
core reads. -/
structure SyncConfig where
  gcalHistoryCalendarId : Option String
  timezone : String
  workingHours : WorkingHours
  lookbackDays : Int
  lookaheadDays : Int
deriving DecidableEq, Repr


/-! ## Lemmas about trimming and title prefixes -/

theorem dropWhile_dropWhile (p : Char → Bool) (l : List Char) :
    (l.dropWhile p).dropWhile p = l.dropWhile p := by
  induction l with
  | nil => rfl
  | cons c l ih =>
      by_cases h : p c
      · simp [List.dropWhile_cons, h, ih]
      · simp [List.dropWhile_cons, h]

theorem head_dropWhile_not {p : Char → Bool} {l : List Char} {c : Char}
    (h : (l.dropWhile p).head? = some c) : p c = false := by
  induction l with
  | nil => simp at h
  | cons d l ih =>
      by_cases hd : p d
      · simp [List.dropWhile_cons, hd] at h
        exact ih h
      · simp [List.dropWhile_cons, hd] at h
        simpa [h] using hd

/-- Trimming only at the end of a char list. -/
def trimEndList (l : List Char) : List Char :=
  (l.reverse.dropWhile isJsWs).reverse

theorem jsTrimList_eq (l : List Char) :
    jsTrimList l = trimEndList (l.dropWhile isJsWs) := rfl

theorem trimEndList_trimEndList (l : List Char) :
    trimEndList (trimEndList l) = trimEndList l := by
  simp [trimEndList, dropWhile_dropWhile]

theorem trimEndList_prefix (l : List Char) : trimEndList l <+: l := by
  have h : l.reverse.dropWhile isJsWs <:+ l.reverse := List.dropWhile_suffix _
  have h2 : (l.reverse.dropWhile isJsWs).reverse <+: l.reverse.reverse :=
    List.reverse_prefix.mpr h
  simpa [trimEndList] using h2

theorem dropWhile_eq_self_of_head {p : Char → Bool} {l : List Char}
    (h : ∀ c, l.head? = some c → p c = false) : l.dropWhile p = l := by
  cases l with
  | nil => rfl
  | cons c l => simp [List.dropWhile_cons, h c rfl]

theorem dropWhile_trimEnd_dropWhile (l : List Char) :
    (trimEndList (l.dropWhile isJsWs)).dropWhile isJsWs
      = trimEndList (l.dropWhile isJsWs) := by
  apply dropWhile_eq_self_of_head
  intro c hc
  have hpre : trimEndList (l.dropWhile isJsWs) <+: l.dropWhile isJsWs :=
    trimEndList_prefix _
  obtain ⟨t, ht⟩ := hpre
  have : (l.dropWhile isJsWs).head? = some c := by
    rw [← ht]
    cases h' : trimEndList (l.dropWhile isJsWs) with
    | nil => simp [h'] at hc
    | cons d r =>
        simp [h'] at hc
        simp [h', hc]
  exact head_dropWhile_not this

theorem jsTrimList_idem (l : List Char) :
    jsTrimList (jsTrimList l) = jsTrimList l := by
  rw [jsTrimList_eq, jsTrimList_eq, dropWhile_trimEnd_dropWhile,
    trimEndList_trimEndList]

theorem jsTrim_idem (s : String) : jsTrim (jsTrim s) = jsTrim s := by
  simp [jsTrim, jsTrimList_idem]

theorem data_append (a b : String) : (a ++ b).data = a.data ++ b.data := rfl

/-- Stripping a title that starts with an emoji-range glyph and the narrow
no-break space removes exactly those two characters and trims the rest. -/
theorem stripPrefix_glyph (g : Char) (rest : List Char)
    (hg : inEmojiRanges g = true) :
    stripPrefix ⟨g :: nnbsp :: rest⟩ = jsTrim ⟨rest⟩ := by
  simp [stripPrefix, hg]

/-- The result of stripPrefix is already trimmed. -/
theorem jsTrim_stripPrefix (t : String) :
    jsTrim (stripPrefix t) = stripPrefix t := by
  unfold stripPrefix
  cases h : t.data with
  | nil => exact jsTrim_idem _
  | cons c l =>
      cases l with
      | nil => exact jsTrim_idem _
      | cons d rest =>
          by_cases hcd : inEmojiRanges c ∧ d = nnbsp
          · simp only [hcd, if_true]
            exact jsTrim_idem _
          · simp only [hcd, if_false]
            exact jsTrim_idem _

/-- The five glyphs that the strip regular expression recognizes. -/
def strippablePrefixes : List String :=
  [PREFIX_TRIAGE, PREFIX_SCHEDULED, PREFIX_DONE, PREFIX_CANCELED,
   PREFIX_FAILED]

theorem stripPrefix_addPrefix_strippable (t p : String)
    (hp : p ∈ strippablePrefixes) :
    stripPrefix (addPrefix t p) = stripPrefix t := by
  have hsplit : ∃ g, p = String.mk [g, nnbsp] ∧ inEmojiRanges g = true := by
    fin_cases hp <;> exact ⟨_, rfl, by decide⟩
  obtain ⟨g, hpg, hg⟩ := hsplit
  have hdata : (addPrefix t p).data = g :: nnbsp :: (stripPrefix t).data := by
    simp [addPrefix, hpg, data_append, String.mk]
  have : addPrefix t p = ⟨g :: nnbsp :: (stripPrefix t).data⟩ := by
    cases hap : addPrefix t p
    simp [hap] at hdata
    simp [hdata]
  rw [this, stripPrefix_glyph g _ hg]
  exact jsTrim_stripPrefix t

example : stripPrefix (PREFIX_TRIAGE ++ "My Task") = "My Task" := by decide

example : stripPrefix "Plain Task" = "Plain Task" := by decide

example : addPrefix (PREFIX_TRIAGE ++ "Existing Task") PREFIX_DONE
    = PREFIX_DONE ++ "Existing Task" := by decide

/-- Claim C10 counterexample: the WORKED prefix glyph (hourglass, U+23F3)
lies outside the three code point ranges stripped by stripPrefix, so adding
a second prefix on top of it stacks glyphs instead of replacing them. -/
theorem C10_counterexample :
    PREFIX_WORKED ∈ PREFIXES_LIST ∧
    addPrefix (addPrefix "Task" PREFIX_WORKED) PREFIX_DONE
      ≠ addPrefix "Task" PREFIX_DONE := by
  constructor
  · decide
  · decide

/-- Claim C10 (amended): for every title t, every prefix p drawn from the
five PREFIXES entries whose glyph lies inside the ranges stripped by
stripPrefix (all entries except WORKED), and every prefix string q,
addPrefix (addPrefix t p) q equals addPrefix t q; in particular addPrefix
is idempotent for those prefixes.  The WORKED glyph U+23F3 is outside the
stripped ranges and stacks. -/
theorem C10_addPrefix_no_stacking (t p q : String)
    (hp : p ∈ strippablePrefixes) :
    addPrefix (addPrefix t p) q = addPrefix t q := by
  rw [show addPrefix (addPrefix t p) q = q ++ stripPrefix (addPrefix t p)
      from rfl,
    stripPrefix_addPrefix_strippable t p hp]
  rfl

/-- Witness for C10 at a concrete title and prefixes. -/
theorem C10_witness :
    PREFIX_SCHEDULED ∈ strippablePrefixes ∧
    addPrefix (addPrefix "Plan week" PREFIX_SCHEDULED) PREFIX_DONE
      = addPrefix "Plan week" PREFIX_DONE :=
  ⟨by decide, C10_addPrefix_no_stacking "Plan week" _ _ (by decide)⟩

/-! ## Model of src/metadata-parser.ts

Each regular expression used by the repository is embedded as a
deterministic scanner.  For every one of these patterns, greedy matching
without backtracking is equivalent to the JS regex engine: each quantified
class is followed either by a character it cannot match (a pipe or slash or
dash after a class excluding it, a non-whitespace literal after a
whitespace class) or by the end of the pattern, so giving back characters
can never turn a failure into a success. -/

/-- Character admitted by the bracket class excluding whitespace and the
pipe character. -/
def isIdChar (c : Char) : Bool := !(isJsWs c) && c ≠ '|'

/-- JS regex digit class. -/
def isDigitCh (c : Char) : Bool := '0' ≤ c && c ≤ '9'

/-- Uppercase ASCII letter, the class used without the i flag. -/
def isUpperCh (c : Char) : Bool := 'A' ≤ c && c ≤ 'Z'

/-- ASCII letter, the uppercase class under the i flag. -/
def isAsciiLetter (c : Char) : Bool :=
  isUpperCh c || ('a' ≤ c && c ≤ 'z')

/-- Case-insensitive literal matcher: consume the literal, return the
remainder. -/
def litCI : List Char → List Char → Option (List Char)
  | [], cs => some cs
  | _ :: _, [] => none
  | p :: ps, c :: cs =>
      if lowerAscii c = lowerAscii p then litCI ps cs else none

/-- Match of the whitespace-star quantifier. -/
def skipWs (cs : List Char) : List Char := cs.dropWhile isJsWs

/-- Greedy nonempty capture of a character class (the plus quantifier). -/
def span1 (p : Char → Bool) (cs : List Char) :
    Option (List Char × List Char) :=
  if (cs.takeWhile p).isEmpty then none
  else some (cs.takeWhile p, cs.dropWhile p)

/-- Parsed calendar-sync comment tag (metadata-parser.ts
ParsedCalendarMetadata).  The duration is the parseInt value of the digit
group. -/
structure ParsedCalendarMetadata where
  gcalId : String
  startTime : String
  durationMin : Nat
deriving DecidableEq, Repr

/-- The parseInt model on a digit group. -/
def parseDigits (l : List Char) : Nat :=
  l.foldl (fun a c => 10 * a + (c.toNat - 48)) 0

/-- Attempt to match the calendar-sync tag pattern at the current position,
returning the captures and the remainder after the match. -/
def matchCalTagAt (cs : List Char) :
    Option (ParsedCalendarMetadata × List Char) :=
  (litCI "<!--".data cs).bind fun r1 =>
  (litCI "calendar-sync".data (skipWs r1)).bind fun r2 =>
  (litCI "-->".data (skipWs r2)).bind fun r3 =>
  (litCI "GoogleCalEventId:".data (skipWs r3)).bind fun r4 =>
  (span1 isIdChar r4).bind fun p5 =>
  (litCI "|".data (skipWs p5.2)).bind fun r6 =>
  (litCI "Start:".data (skipWs r6)).bind fun r7 =>
  (span1 isIdChar r7).bind fun p8 =>
  (litCI "|".data (skipWs p8.2)).bind fun r9 =>
  (litCI "DurMin:".data (skipWs r9)).bind fun r10 =>
  (span1 isDigitCh r10).bind fun p11 =>
  some (⟨⟨p5.1⟩, ⟨p8.1⟩, parseDigits p11.1⟩, p11.2)

/-- Leftmost search for the calendar-sync tag. -/
def searchCalTag : List Char → Option (ParsedCalendarMetadata × List Char)
  | [] => none
  | c :: cs =>
      match matchCalTagAt (c :: cs) with
      | some r => some r
      | none => searchCalTag cs

theorem litCI_length {p cs r : List Char} (h : litCI p cs = some r) :
    r.length + p.length = cs.length := by
  induction p generalizing cs with
  | nil => simp [litCI] at h; simp [h]
  | cons a p ih =>
      cases cs with
      | nil => simp [litCI] at h
      | cons c cs =>
          simp only [litCI] at h
          split at h
          · have := ih h
            simp [List.length_cons]
            omega
          · exact absurd h (by simp)

theorem skipWs_length_le (cs : List Char) :
    (skipWs cs).length ≤ cs.length := by
  induction cs with
  | nil => simp [skipWs]
  | cons c cs ih =>
      by_cases h : isJsWs c
      · simp only [skipWs, List.dropWhile_cons, h, if_true]
        exact Nat.le_trans ih (Nat.le_succ _)
      · simp [skipWs, List.dropWhile_cons, h]

theorem span1_length {p : Char → Bool} {cs t r : List Char}
    (h : span1 p cs = some (t, r)) : t ≠ [] ∧ t ++ r = cs := by
  simp only [span1] at h
  split at h
  · exact absurd h (by simp)
  · rename_i hne
    obtain ⟨ht, hr⟩ := by simpa using h
    refine ⟨?_, ?_⟩
    · rw [← ht]; simpa [List.isEmpty_iff] using hne
    · rw [← ht, ← hr]; exact List.takeWhile_append_dropWhile p cs

theorem matchCalTagAt_length {cs : List Char}
    {m : ParsedCalendarMetadata} {r : List Char}
    (h : matchCalTagAt cs = some (m, r)) : r.length < cs.length := by
  simp only [matchCalTagAt, Option.bind_eq_some] at h
  obtain ⟨r1, h1, r2, h2, r3, h3, r4, h4, p5, h5, r6, h6, r7, h7, p8, h8,
    r9, h9, r10, h10, p11, h11, hfin⟩ := h
  obtain ⟨g5, r5⟩ := p5
  obtain ⟨g8, r8⟩ := p8
  obtain ⟨g11, r11⟩ := p11
  dsimp only at h6 h9
  simp only [Option.some_inj, Prod.mk.injEq] at hfin
  have l1 := litCI_length h1
  have l2 := litCI_length h2
  have l3 := litCI_length h3
  have l4 := litCI_length h4
  have s1 := skipWs_length_le r1
  have s2 := skipWs_length_le r2
  have s3 := skipWs_length_le r3
  have ⟨ne5, e5⟩ := span1_length h5
  have l6 := litCI_length h6
  have l7 := litCI_length h7
  have s5 := skipWs_length_le r5
  have s6 := skipWs_length_le r6
  have ⟨ne8, e8⟩ := span1_length h8
  have l9 := litCI_length h9
  have l10 := litCI_length h10
  have s8 := skipWs_length_le r8
  have s9 := skipWs_length_le r9
  have ⟨ne11, e11⟩ := span1_length h11
  have hr : r11 = r := hfin.2
  subst hr
  have e5l : g5.length + r5.length = r4.length := by rw [← e5]; simp
  have e8l : g8.length + r8.length = r7.length := by rw [← e8]; simp
  have e11l : g11.length + r11.length = r10.length := by rw [← e11]; simp
  have ne5l : 0 < g5.length := List.length_pos.mpr ne5
  have ne8l : 0 < g8.length := List.length_pos.mpr ne8
  have ne11l : 0 < g11.length := List.length_pos.mpr ne11
  simp only [String.data] at l1 l2 l3 l4 l6 l7 l9 l10
  simp only [List.length_cons, List.length_nil] at l1 l2 l3 l4 l6 l7 l9 l10
  omega

theorem searchCalTag_length {cs : List Char}
    {m : ParsedCalendarMetadata} {r : List Char}
    (h : searchCalTag cs = some (m, r)) : r.length < cs.length := by
  induction cs with
  | nil => simp [searchCalTag] at h
  | cons c cs ih =>
      simp only [searchCalTag] at h
      split at h
      · rename_i heq
        cases h
        exact matchCalTagAt_length heq
      · exact Nat.lt_trans (ih h) (Nat.lt_succ_self _)

/-- Fuel-indexed helper for the repeated leftmost search.  The fuel only
serves to make the recursion structural; searchAllCalTags always supplies
enough of it, as the unfolding lemma below proves. -/
def searchAllCalTagsAux : Nat → List Char → List ParsedCalendarMetadata
  | 0, _ => []
  | fuel + 1, cs =>
      match searchCalTag cs with
      | none => []
      | some (m, rest) => m :: searchAllCalTagsAux fuel rest

/-- Repeated leftmost search, the model of a global regex exec loop: each
iteration resumes after the end of the previous match. -/
def searchAllCalTags (cs : List Char) : List ParsedCalendarMetadata :=
  searchAllCalTagsAux (cs.length + 1) cs

theorem searchAllCalTagsAux_irrel (f1 f2 : Nat) (cs : List Char)
    (h1 : cs.length < f1) (h2 : cs.length < f2) :
    searchAllCalTagsAux f1 cs = searchAllCalTagsAux f2 cs := by
  induction f1 generalizing f2 cs with
  | zero => omega
  | succ f1 ih =>
      cases f2 with
      | zero => omega
      | succ f2 =>
          simp only [searchAllCalTagsAux]
          cases hs : searchCalTag cs with
          | none => rfl
          | some r =>
              obtain ⟨m, rest⟩ := r
              have hlen := searchCalTag_length hs
              dsimp only
              rw [ih f2 rest (by omega) (by omega)]

theorem searchAllCalTags_eq (cs : List Char) :
    searchAllCalTags cs
      = match searchCalTag cs with
        | none => []
        | some (m, rest) => m :: searchAllCalTags rest := by
  show searchAllCalTagsAux (cs.length + 1) cs = _
  simp only [searchAllCalTagsAux]
  cases hs : searchCalTag cs with
  | none => rfl
  | some r =>
      obtain ⟨m, rest⟩ := r
      have hlen := searchCalTag_length hs
      dsimp only
      rw [searchAllCalTagsAux_irrel cs.length (rest.length + 1) rest
        (by omega) (by omega)]
      rfl

/-- Model of metadata-parser.ts parseCalendarMetadataFromDescription.  The
guard mirrors the falsy check on the description argument. -/
def parseCalendarMetadataFromDescription :
    Option String → Option ParsedCalendarMetadata
  | none => none
  | some s => if s = "" then none else (searchCalTag s.data).map (·.1)

/-- Model of metadata-parser.ts parseAllCalendarMetadataFromDescription. -/
def parseAllCalendarMetadataFromDescription :
    Option String → List ParsedCalendarMetadata
  | none => []
  | some s => if s = "" then [] else searchAllCalTags s.data

/-- Parsed Linear link (metadata-parser.ts ParsedLinearLink). -/
structure ParsedLinearLink where
  issueId : String
  issueKey : String
  url : String
deriving DecidableEq, Repr

/-- Replace the first occurrence of a pattern, the model of the JS replace
function with a string pattern. -/
def replaceFirst (pat repl : List Char) : List Char → List Char
  | [] => []
  | c :: cs =>
      if pat.isPrefixOf (c :: cs) then repl ++ (c :: cs).drop pat.length
      else c :: replaceFirst pat repl cs

/-- Attempt at the inner case-sensitive pattern of uppercase letters, dash,
digits; returns the digit group. -/
def matchUpperKeyAt (cs : List Char) : Option (List Char) :=
  (span1 isUpperCh cs).bind fun p1 =>
  (litCI "-".data p1.2).bind fun r2 =>
  (span1 isDigitCh r2).bind fun p3 =>
  some p3.1

/-- Leftmost search for the inner uppercase issue-key pattern, returning
the digit group. -/
def searchUpperKeyDigits : List Char → Option (List Char)
  | [] => none
  | c :: cs =>
      match matchUpperKeyAt (c :: cs) with
      | some ds => some ds
      | none => searchUpperKeyDigits cs

/-- Attempt to match the Linear link pattern at the current position.  The
match object carries the full matched text, from which the url field is
derived by removing the literal label and trimming. -/
def matchLinearLinkAt (cs : List Char) :
    Option (ParsedLinearLink × List Char) :=
  (litCI "Linear issue:".data cs).bind fun r1 =>
  (litCI "https://linear.app/".data (skipWs r1)).bind fun r3 =>
  (span1 (fun c => c ≠ '/') r3).bind fun p4 =>
  (litCI "/issue/".data p4.2).bind fun r5 =>
  (span1 isAsciiLetter r5).bind fun p6 =>
  (litCI "-".data p6.2).bind fun r7 =>
  (span1 isDigitCh r7).bind fun p8 =>
  let issueKey : List Char := p6.1 ++ '-' :: p8.1
  let matched : List Char := cs.take (cs.length - p8.2.length)
  let issueId : String :=
    match searchUpperKeyDigits issueKey with
    | some ds => ⟨ds⟩
    | none => ⟨issueKey⟩
  some (⟨issueId, ⟨issueKey⟩,
    jsTrim ⟨replaceFirst "Linear issue: ".data [] matched⟩⟩, p8.2)

/-- Leftmost search for the Linear link pattern. -/
def searchLinearLink : List Char → Option (ParsedLinearLink × List Char)
  | [] => none
  | c :: cs =>
      match matchLinearLinkAt (c :: cs) with
      | some r => some r
      | none => searchLinearLink cs

/-- Model of metadata-parser.ts parseLinearLinkFromDescription. -/
def parseLinearLinkFromDescription :
    Option String → Option ParsedLinearLink
  | none => none
  | some s => if s = "" then none else (searchLinearLink s.data).map (·.1)

/-- Leftmost full match of the bare issue-key pattern of uppercase letters,
dash, digits (case-sensitive, used as fallback). -/
def matchIssueKeyAt (cs : List Char) : Option (List Char) :=
  (span1 isUpperCh cs).bind fun p1 =>
  (litCI "-".data p1.2).bind fun r2 =>
  (span1 isDigitCh r2).bind fun p3 =>
  some (p1.1 ++ '-' :: p3.1)

/-- Leftmost search for the bare issue-key pattern. -/
def searchIssueKey : List Char → Option (List Char)
  | [] => none
  | c :: cs =>
      match matchIssueKeyAt (c :: cs) with
      | some k => some k
      | none => searchIssueKey cs

/-- Model of metadata-parser.ts extractLinearIdFromText. -/
def extractLinearIdFromText : Option String → Option String
  | none => none
  | some s =>
      if s = "" then none
      else
        match parseLinearLinkFromDescription (some s) with
        | some l => some l.issueKey
        | none =>
            match searchIssueKey s.data with
            | some k => some (⟨k⟩ : String)
            | none => none

/-! ## Decimal rendering of JS numbers in template literals -/

/-- Decimal digit characters. -/
def digitCharOf : Nat → Char
  | 0 => '0'
  | 1 => '1'
  | 2 => '2'
  | 3 => '3'
  | 4 => '4'
  | 5 => '5'
  | 6 => '6'
  | 7 => '7'
  | 8 => '8'
  | _ => '9'

/-- Fuel-indexed helper for decimal rendering; the fuel only makes the
recursion structural and is always sufficient below. -/
def natToDecAux : Nat → Nat → List Char
  | 0, _ => []
  | fuel + 1, n =>
      if n < 10 then [digitCharOf n]
      else natToDecAux fuel (n / 10) ++ [digitCharOf (n % 10)]

/-- Decimal rendering of a natural number as a char list, the behaviour of
a template literal on a nonnegative JS number. -/
def natToDec (n : Nat) : List Char := natToDecAux (n + 1) n

theorem natToDecAux_irrel (f1 f2 n : Nat) (h1 : n < f1) (h2 : n < f2) :
    natToDecAux f1 n = natToDecAux f2 n := by
  induction f1 generalizing f2 n with
  | zero => omega
  | succ f1 ih =>
      cases f2 with
      | zero => omega
      | succ f2 =>
          simp only [natToDecAux]
          by_cases h : n < 10
          · simp [h]
          · have hdiv : n / 10 < n := Nat.div_lt_self (by omega) (by omega)
            simp only [h, if_false]
            rw [ih f2 (n / 10) (by omega) (by omega)]

theorem natToDec_eq (n : Nat) :
    natToDec n
      = if n < 10 then [digitCharOf n]
        else natToDec (n / 10) ++ [digitCharOf (n % 10)] := by
  show natToDecAux (n + 1) n = _
  simp only [natToDecAux]
  by_cases h : n < 10
  · simp [h]
  · have hdiv : n / 10 < n := Nat.div_lt_self (by omega) (by omega)
    simp only [h, if_false]
    rw [natToDecAux_irrel n (n / 10 + 1) (n / 10) (by omega) (by omega)]
    rfl

/-- Decimal rendering as a string. -/
def natToDecStr (n : Nat) : String := ⟨natToDec n⟩

/-- Decimal rendering of an integer in a template literal. -/
def intToDecStr (n : Int) : String :=
  if n < 0 then "-" ++ natToDecStr (-n).toNat else natToDecStr n.toNat

/-- The single-line calendar-sync comment tag template used by the
actuator (actuator.ts createLinearIssue, patchLinearIssue and
createGCalEventAndUpdateLinear). -/
def calendarSyncTag (gcalId startTime : String) (durMin : Nat) : String :=
  "<!-- calendar-sync --> GoogleCalEventId:" ++ gcalId ++
    " | Start:" ++ startTime ++ " | DurMin:" ++ natToDecStr durMin

/-! ## Correctness of the matcher on serializer output -/

theorem data_mk (l : List Char) : (⟨l⟩ : String).data = l := rfl

theorem litCI_self (l r : List Char) : litCI l (l ++ r) = some r := by
  induction l with
  | nil => simp [litCI]
  | cons c l ih => simp [litCI, ih]

theorem skipWs_cons_space (r : List Char) : skipWs (' ' :: r) = skipWs r := by
  simp [skipWs, List.dropWhile_cons, show isJsWs ' ' = true from rfl]

/-- Whether a char list starts with a character the whitespace class does
not match. -/
def headNotWs : List Char → Bool
  | [] => false
  | c :: _ => !isJsWs c

theorem skipWs_eq_self {l : List Char} (h : headNotWs l = true) :
    skipWs l = l := by
  cases l with
  | nil => rfl
  | cons c r =>
      simp only [headNotWs, Bool.not_eq_true'] at h
      simp [skipWs, List.dropWhile_cons, h]

theorem headNotWs_append {l : List Char} (r : List Char)
    (h : headNotWs l = true) : headNotWs (l ++ r) = true := by
  cases l with
  | nil => simp [headNotWs] at h
  | cons c t => simpa [headNotWs] using h

/-- Composite step: one literal space, then a literal that does not start
with whitespace. -/
theorem wsLit (lit : String) (r : List Char)
    (h : headNotWs lit.data = true) :
    litCI lit.data (skipWs (' ' :: (lit.data ++ r))) = some r := by
  rw [skipWs_cons_space, skipWs_eq_self (headNotWs_append r h), litCI_self]

theorem takeWhile_append_all {p : Char → Bool} {t : List Char}
    (r : List Char) (h : ∀ c ∈ t, p c = true) :
    (t ++ r).takeWhile p = t ++ r.takeWhile p := by
  induction t with
  | nil => simp
  | cons c t ih =>
      simp only [List.cons_append, List.takeWhile_cons]
      rw [h c (by simp)]
      simp only [if_true]
      rw [ih (fun x hx => h x (by simp [hx]))]

theorem dropWhile_append_all {p : Char → Bool} {t : List Char}
    (r : List Char) (h : ∀ c ∈ t, p c = true) :
    (t ++ r).dropWhile p = r.dropWhile p := by
  induction t with
  | nil => simp
  | cons c t ih =>
      simp only [List.cons_append, List.dropWhile_cons]
      rw [h c (by simp)]
      simp only [if_true]
      exact ih (fun x hx => h x (by simp [hx]))

theorem span1_token {p : Char → Bool} {t : List Char} {c : Char}
    (r : List Char) (hall : ∀ x ∈ t, p x = true) (hne : t ≠ [])
    (hc : p c = false) :
    span1 p (t ++ c :: r) = some (t, c :: r) := by
  have htw : (t ++ c :: r).takeWhile p = t := by
    rw [takeWhile_append_all _ hall, List.takeWhile_cons, hc]
    simp
  have hdw : (t ++ c :: r).dropWhile p = c :: r := by
    rw [dropWhile_append_all _ hall, List.dropWhile_cons, hc]
    simp
  simp [span1, htw, hdw, List.isEmpty_iff, hne]

theorem span1_all {p : Char → Bool} {t : List Char}
    (hall : ∀ x ∈ t, p x = true) (hne : t ≠ []) :
    span1 p t = some (t, []) := by
  have htw : t.takeWhile p = t := by
    have := takeWhile_append_all (p := p) (t := t) [] hall
    simpa using this
  have hdw : t.dropWhile p = [] := by
    have := dropWhile_append_all (p := p) (t := t) [] hall
    simpa using this
  simp [span1, htw, hdw, List.isEmpty_iff, hne]

theorem digitCharOf_isDigit (m : Nat) : isDigitCh (digitCharOf m) = true := by
  unfold digitCharOf
  split <;> decide

theorem digitCharOf_val {m : Nat} (h : m < 10) :
    (digitCharOf m).toNat - 48 = m := by
  interval_cases m <;> rfl

theorem natToDec_digits (n : Nat) : ∀ c ∈ natToDec n, isDigitCh c = true := by
  induction n using Nat.strong_induction_on with
  | _ n ih =>
      rw [natToDec_eq]
      split
      · intro c hc
        simp at hc
        simp [hc, digitCharOf_isDigit]
      · rename_i h
        intro c hc
        simp at hc
        rcases hc with hc | hc
        · exact ih (n / 10) (Nat.div_lt_self (by omega) (by omega)) c hc
        · simp [hc, digitCharOf_isDigit]

theorem natToDec_ne_nil (n : Nat) : natToDec n ≠ [] := by
  rw [natToDec_eq]
  split <;> simp

theorem parseDigits_append (l : List Char) (c : Char) :
    parseDigits (l ++ [c]) = 10 * parseDigits l + (c.toNat - 48) := by
  simp [parseDigits, List.foldl_append]

theorem parseDigits_natToDec (n : Nat) : parseDigits (natToDec n) = n := by
  induction n using Nat.strong_induction_on with
  | _ n ih =>
      rw [natToDec_eq]
      split
      · rename_i h
        simp [parseDigits, digitCharOf_val h]
      · rename_i h
        push_neg at h
        rw [parseDigits_append,
          ih (n / 10) (Nat.div_lt_self (by omega) (by omega)),
          digitCharOf_val (Nat.mod_lt _ (by omega))]
        omega

theorem matchCalTagAt_shape (idl stl dl rest : List Char)
    (hid : idl ≠ []) (hida : ∀ c ∈ idl, isIdChar c = true)
    (hst : stl ≠ []) (hsta : ∀ c ∈ stl, isIdChar c = true)
    (hspan : span1 isDigitCh (dl ++ rest) = some (dl, rest)) :
    matchCalTagAt ("<!--".data ++ ' ' ::
      ("calendar-sync".data ++ ' ' ::
        ("-->".data ++ ' ' ::
          ("GoogleCalEventId:".data ++
            (idl ++ ' ' ::
              ("|".data ++ ' ' ::
                ("Start:".data ++
                  (stl ++ ' ' ::
                    ("|".data ++ ' ' ::
                      ("DurMin:".data ++ (dl ++ rest)))))))))))
      = some (⟨⟨idl⟩, ⟨stl⟩, parseDigits dl⟩, rest) := by
  unfold matchCalTagAt
  rw [litCI_self]
  simp only [Option.some_bind]
  rw [wsLit "calendar-sync" _ rfl]
  simp only [Option.some_bind]
  rw [wsLit "-->" _ rfl]
  simp only [Option.some_bind]
  rw [wsLit "GoogleCalEventId:" _ rfl]
  simp only [Option.some_bind]
  rw [span1_token (c := ' ') _ hida hid rfl]
  simp only [Option.some_bind]
  rw [wsLit "|" _ rfl]
  simp only [Option.some_bind]
  rw [wsLit "Start:" _ rfl]
  simp only [Option.some_bind]
  rw [span1_token (c := ' ') _ hsta hst rfl]
  simp only [Option.some_bind]
  rw [wsLit "|" _ rfl]
  simp only [Option.some_bind]
  rw [wsLit "DurMin:" _ rfl]
  simp only [Option.some_bind]
  rw [hspan]
  simp only [Option.some_bind]

theorem calendarSyncTag_data (gid st : String) (n : Nat) :
    (calendarSyncTag gid st n).data
      = "<!--".data ++ ' ' ::
          ("calendar-sync".data ++ ' ' ::
            ("-->".data ++ ' ' ::
              ("GoogleCalEventId:".data ++
                (gid.data ++ ' ' ::
                  ("|".data ++ ' ' ::
                    ("Start:".data ++
                      (st.data ++ ' ' ::
                        ("|".data ++ ' ' ::
                          ("DurMin:".data ++ natToDec n))))))))) := by
  have h1 : ("<!-- calendar-sync --> GoogleCalEventId:" : String).data
      = "<!--".data ++ ' ' ::
          ("calendar-sync".data ++ ' ' ::
            ("-->".data ++ ' ' :: "GoogleCalEventId:".data)) := by decide
  have h2 : (" | Start:" : String).data
      = ' ' :: ("|".data ++ ' ' :: "Start:".data) := by decide
  have h3 : (" | DurMin:" : String).data
      = ' ' :: ("|".data ++ ' ' :: "DurMin:".data) := by decide
  simp only [calendarSyncTag, natToDecStr, data_append, data_mk, h1, h2, h3,
    List.append_assoc, List.cons_append, List.nil_append]

theorem searchCalTag_of_matchAt {cs : List Char}
    {r : ParsedCalendarMetadata × List Char}
    (hne : cs ≠ []) (h : matchCalTagAt cs = some r) :
    searchCalTag cs = some r := by
  cases cs with
  | nil => exact absurd rfl hne
  | cons c cs' => simp [searchCalTag, h]

/-- A string usable as a capture of the bracket class: nonempty, and free
of whitespace and pipe characters. -/
def goodToken (s : String) : Prop :=
  s.data ≠ [] ∧ ∀ c ∈ s.data, isIdChar c = true

instance (s : String) : Decidable (goodToken s) := by
  unfold goodToken; infer_instance

theorem calendarSyncTag_data_ne_nil (gid st : String) (n : Nat) :
    (calendarSyncTag gid st n).data ≠ [] := by
  rw [calendarSyncTag_data]
  have h4 : ("<!--" : String).data = ['<', '!', '-', '-'] := by decide
  rw [h4]
  simp

/-- Claim C9 (amended): the round trip holds for every nonempty event id
and nonempty start string free of whitespace and pipe characters, and
every natural duration. -/
theorem C9_metadata_roundtrip (gid st : String) (n : Nat)
    (hg : goodToken gid) (hs : goodToken st) :
    parseCalendarMetadataFromDescription (some (calendarSyncTag gid st n))
      = some ⟨gid, st, n⟩ := by
  have hdata := calendarSyncTag_data gid st n
  have hdne := calendarSyncTag_data_ne_nil gid st n
  have hne : calendarSyncTag gid st n ≠ "" := by
    intro he
    rw [he] at hdne
    exact hdne rfl
  have hmatch := matchCalTagAt_shape gid.data st.data (natToDec n) []
    hg.1 hg.2 hs.1 hs.2
    (by rw [List.append_nil]
        exact span1_all (natToDec_digits n) (natToDec_ne_nil n))
  rw [List.append_nil] at hmatch
  rw [← hdata] at hmatch
  have hsearch := searchCalTag_of_matchAt hdne hmatch
  simp [parseCalendarMetadataFromDescription, hne, hsearch,
    parseDigits_natToDec]

example :
    parseCalendarMetadataFromDescription
        (some ("<!-- calendar-sync --> GoogleCalEventId:gcal-1 | " ++
          "Start:2024-01-01T14:00:00Z | DurMin:120"))
      = some ⟨"gcal-1", "2024-01-01T14:00:00Z", 120⟩ := by decide

example :
    parseLinearLinkFromDescription
        (some "Linear issue: https://linear.app/liamhorne/issue/LIAM-1545")
      = some ⟨"1545", "LIAM-1545",
          "https://linear.app/liamhorne/issue/LIAM-1545"⟩ := by decide

/-- Claim C9 counterexample: the empty event id contains no whitespace and
no pipe character, yet the serialized tag built from it does not parse back
(the capture group requires at least one character), so the round trip
fails. -/
theorem C9_counterexample :
    (∀ c ∈ ("" : String).data, isIdChar c = true) ∧
    parseCalendarMetadataFromDescription
        (some (calendarSyncTag "" "2025-07-19T00:45:00.000Z" 30)) = none := by
  decide

/-- Witness for C9 at concrete values. -/
theorem C9_witness :
    goodToken "ev123" ∧ goodToken "2025-07-19T00:45:00.000Z" ∧
    parseCalendarMetadataFromDescription
        (some (calendarSyncTag "ev123" "2025-07-19T00:45:00.000Z" 30))
      = some ⟨"ev123", "2025-07-19T00:45:00.000Z", 30⟩ :=
  ⟨by decide, by decide,
    C9_metadata_roundtrip "ev123" "2025-07-19T00:45:00.000Z" 30
      (by decide) (by decide)⟩

/-! ## Model of src/projector.ts phase classification -/

/-- Model of projector.ts classifyPhase.  The dayjs diff in hours truncates
toward zero, which Int.tdiv matches; timestamps are milliseconds. -/
def classifyPhase (linearIssue : Option LinearIssue)
    (gcalEvent : Option GCalEvent) (endTime : Option Int) (now : Int) :
    Phase :=
  match linearIssue, gcalEvent with
  | none, some _ => .eventOnly
  | some _, none => .linearOnly
  | some li, some _ =>
      if li.state = .Done ∨ li.state = .Canceled ∨ li.state = .Failed then
        .completed
      else
        match endTime with
        | some e =>
            if 24 < Int.tdiv (now - e) 3600000 ∧ li.state ≠ .Done then
              .overdue
            else .active
        | none => .active
  | none, none => .active

/-- Phase classification as the claim words it: the overdue threshold reads
literally as the event end lying more than 24 hours (in milliseconds)
before now.  This definition follows the claim, not the source. -/
def phaseSpecLiteral (linearIssue : Option LinearIssue)
    (gcalEvent : Option GCalEvent) (endTime : Option Int) (now : Int) :
    Phase :=
  match linearIssue, gcalEvent with
  | none, some _ => .eventOnly
  | some _, none => .linearOnly
  | some li, some _ =>
      if li.state = .Done ∨ li.state = .Canceled ∨ li.state = .Failed then
        .completed
      else
        match endTime with
        | some e =>
            if 24 * 3600000 < now - e ∧ li.state ≠ .Done then .overdue
            else .active
        | none => .active
  | none, none => .active

/-- Phase classification as amended: overdue requires at least 25 full
hours between the event end and now, because the truncated hour difference
must strictly exceed 24.  Otherwise identical to the claim wording. -/
def phaseSpecAmended (linearIssue : Option LinearIssue)
    (gcalEvent : Option GCalEvent) (endTime : Option Int) (now : Int) :
    Phase :=
  match linearIssue, gcalEvent with
  | none, some _ => .eventOnly
  | some _, none => .linearOnly
  | some li, some _ =>
      if li.state = .Done ∨ li.state = .Canceled ∨ li.state = .Failed then
        .completed
      else
        match endTime with
        | some e =>
            if 25 * 3600000 ≤ now - e ∧ li.state ≠ .Done then .overdue
            else .active
        | none => .active
  | none, none => .active

theorem tdiv_hours_gt_24 (d : Int) :
    24 < Int.tdiv d 3600000 ↔ 90000000 ≤ d := by
  rcases le_or_lt 0 d with h | h
  · rw [Int.tdiv_eq_ediv h (by norm_num)]
    omega
  · have h0 : Int.tdiv d 3600000 = -(Int.tdiv (-d) 3600000) := by
      rw [← Int.neg_tdiv, neg_neg]
    have h1 : 0 ≤ Int.tdiv (-d) 3600000 :=
      Int.tdiv_nonneg (by omega) (by norm_num)
    constructor
    · intro hc; omega
    · intro hc; omega

/-- Claim C3 counterexample: with the event ending 24.5 hours before now
and the issue still Scheduled, the claim as worded classifies the pair
overdue, but the code computes a truncated hour difference of 24, which is
not greater than 24, and classifies it active. -/
theorem C3_counterexample :
    phaseSpecLiteral
        (some ⟨"l1", "T", none, .Scheduled, none, none⟩)
        (some ⟨"g1", "T", none, ⟨some 0, none⟩, ⟨some 0, none⟩, none,
          .confirmed⟩)
        (some 0) 88200000 = .overdue ∧
    classifyPhase
        (some ⟨"l1", "T", none, .Scheduled, none, none⟩)
        (some ⟨"g1", "T", none, ⟨some 0, none⟩, ⟨some 0, none⟩, none,
          .confirmed⟩)
        (some 0) 88200000 = .active := by
  decide

/-- Claim C3 (amended): phase classification follows exactly the claimed
priority order, with the overdue threshold amended from more than 24 hours
to at least 25 full hours, because the dayjs hour difference truncates.
In particular a terminal issue state always yields completed, never
overdue. -/
theorem C3_phase_classification (linearIssue : Option LinearIssue)
    (gcalEvent : Option GCalEvent) (endTime : Option Int) (now : Int)
    (h : linearIssue.isSome ∨ gcalEvent.isSome) :
    classifyPhase linearIssue gcalEvent endTime now
      = phaseSpecAmended linearIssue gcalEvent endTime now := by
  match linearIssue, gcalEvent with
  | none, some _ => rfl
  | some _, none => rfl
  | none, none => simp at h
  | some li, some ev =>
      simp only [classifyPhase, phaseSpecAmended]
      split
      · rfl
      · cases endTime with
        | none => rfl
        | some e =>
            simp only
            rename_i hterm
            have hnd : li.state ≠ .Done := fun hx => hterm (Or.inl hx)
            have hiff := tdiv_hours_gt_24 (now - e)
            by_cases hc : 24 < Int.tdiv (now - e) 3600000
            · have hc2 : (90000000 : Int) ≤ now - e := hiff.mp hc
              simp [hc, hc2, hnd]
            · have hc2 : ¬ ((90000000 : Int) ≤ now - e) := by
                intro hx
                exact hc (hiff.mpr hx)
              simp [hc, hc2]

/-- Witness for C3 at a concrete linked pair thirty hours past its end. -/
theorem C3_witness :
    classifyPhase
        (some ⟨"l1", "T", none, .Scheduled, none, none⟩)
        (some ⟨"g1", "T", none, ⟨some 0, none⟩, ⟨some 0, none⟩, none,
          .confirmed⟩)
        (some 0) 108000000
      = phaseSpecAmended
          (some ⟨"l1", "T", none, .Scheduled, none, none⟩)
          (some ⟨"g1", "T", none, ⟨some 0, none⟩, ⟨some 0, none⟩, none,
            .confirmed⟩)
          (some 0) 108000000 :=
  C3_phase_classification _ _ _ _ (Or.inl rfl)

/-! ## Model of src/diff.ts

The repository carries two versions of the diff engine.  The current one
(the second document of the diff source, whose overdue case emits a single
reschedule patch with cleared times and which pairs with the current
actuator, which has no copy-to-history case) is embedded as
generateOperationsForItem and diff.  The legacy version (first document,
whose overdue case emits a copy-to-history operation followed by a
reschedule patch with default times read from the wall clock) is embedded
as generateOperationsForItemV1. -/

/-- Model of diff.ts getCompletionPrefix with its default branch. -/
def getCompletionPrefix (state : LinearState) : String :=
  match state with
  | .Done => PREFIX_DONE
  | .Canceled => PREFIX_CANCELED
  | .Failed => PREFIX_FAILED
  | _ => PREFIX_DONE

/-- Model of diff.ts generateMetadataSyncOperations, identical in both
versions of the diff engine. -/
def generateMetadataSyncOperations (item : CanonicalItem) : List Operation :=
  (if strTruthy item.linearId && !(strTruthy item.gcalId) then
    [⟨.createGCalEvent, item, "Sync missing GCal event for Linear issue"⟩]
  else []) ++
  (if strTruthy item.gcalId && !(strTruthy item.linearId) then
    [⟨.createLinearIssue, item, "Sync missing Linear issue for GCal event"⟩]
  else [])

/-- Model of the current diff.ts generateOperationsForItem.  The timezone
parameter is accepted and unused, as in the source. -/
def generateOperationsForItem (item : CanonicalItem) (_timezone : String) :
    List Operation :=
  match item.phase with
  | .eventOnly =>
      [⟨.createLinearIssueAndUpdateGCal,
        { item with
          linearState := some .Triage,
          title := addPrefix item.title PREFIX_TRIAGE },
        "New GCal event needs Linear issue and title update"⟩]
  | .linearOnly =>
      if item.linearState = some .Scheduled then
        [⟨.createGCalEventAndUpdateLinear,
          { item with title := addPrefix item.title PREFIX_SCHEDULED },
          "Scheduled Linear issue needs GCal event and metadata linking"⟩]
      else []
  | .active => generateMetadataSyncOperations item
  | .completed =>
      if strTruthy item.gcalId then
        match item.linearState with
        | some s =>
            if item.currentGCalTitle
                ≠ some (addPrefix item.title (getCompletionPrefix s)) then
              [⟨.patchGCalEvent,
                { item with
                  title := addPrefix item.title (getCompletionPrefix s) },
                "Linear issue marked as " ++ stateName s⟩]
            else []
        | none => []
      else []
  | .overdue =>
      if strTruthy item.gcalId then
        [⟨.patchGCalEvent,
          { item with
            startTime := none,
            endTime := none,
            title := if item.linearState = some .Scheduled then
                addPrefix item.title PREFIX_SCHEDULED
              else item.title },
          "Rescheduling overdue event to new time slot"⟩]
      else []

/-- Model of the current diff.ts diff function. -/
def diff (items : List CanonicalItem) (timezone : String) : List Operation :=
  (items.map (generateOperationsForItem · timezone)).join

/-- Sets hour, zeroes minute and second, keeps milliseconds, as the dayjs
chain hour-minute-second does; the day is taken in the modelled fixed
offset. -/
def setHMS0 (t : Int) (h : Int) : Int :=
  (Int.fdiv t 86400000) * 86400000 + h * 3600000 + Int.emod t 1000

/-- Model of the legacy diff.ts getDefaultStartTime: tomorrow at 9 AM read
from the ambient clock, threaded here as an explicit now. -/
def getDefaultStartTimeV1 (now : Int) : Int := setHMS0 (now + 86400000) 9

/-- Model of the legacy diff.ts getDefaultEndTime with its default
estimate. -/
def getDefaultEndTimeV1 (startTime : Int)
    (estimate : Option LinearEstimate) : Int :=
  let duration :=
    match estimate with
    | some e => estimateToDuration e
    | none => estimateToDuration .S
  startTime + duration * 60000

/-- Model of the legacy diff.ts generateOperationsForItem. -/
def generateOperationsForItemV1 (item : CanonicalItem) (now : Int) :
    List Operation :=
  match item.phase with
  | .eventOnly =>
      [⟨.createLinearIssueAndUpdateGCal,
        { item with
          linearState := some .Triage,
          title := addPrefix item.title PREFIX_TRIAGE },
        "New GCal event needs Linear issue and title update"⟩]
  | .linearOnly =>
      if item.linearState = some .Scheduled then
        let startTime :=
          match item.startTime with
          | some s => s
          | none => getDefaultStartTimeV1 now
        [⟨.createGCalEventAndUpdateLinear,
          { item with
            title := addPrefix item.title PREFIX_SCHEDULED,
            startTime := some startTime,
            endTime := some (getDefaultEndTimeV1 startTime item.estimate) },
          "Scheduled Linear issue needs GCal event and metadata linking"⟩]
      else []
  | .active => generateMetadataSyncOperations item
  | .completed =>
      if strTruthy item.gcalId then
        match item.linearState with
        | some s =>
            if item.currentGCalTitle
                ≠ some (addPrefix item.title (getCompletionPrefix s)) then
              [⟨.patchGCalEvent,
                { item with
                  title := addPrefix item.title (getCompletionPrefix s) },
                "Linear issue marked as " ++ stateName s⟩]
            else []
        | none => []
      else []
  | .overdue =>
      if strTruthy item.gcalId then
        [⟨.copyEventToHistory,
          { item with title := addPrefix item.title PREFIX_WORKED },
          "Copying overdue event to history calendar with worked on (⏳) prefix"⟩,
         ⟨.patchGCalEvent,
          { item with
            startTime := some (getDefaultStartTimeV1 now),
            endTime := some (getDefaultEndTimeV1 (getDefaultStartTimeV1 now)
              item.estimate),
            title := if item.linearState = some .Scheduled then
                addPrefix item.title PREFIX_SCHEDULED
              else item.title },
          "Rescheduling overdue event to new time slot"⟩]
      else []

/-- Claim C4 counterexample: on a concrete overdue item with an event id,
the current diff engine emits exactly one operation, a reschedule patch,
and no copy-to-history operation, so the claimed two-operation sequence
does not hold. -/
theorem C4_counterexample :
    ((diff [⟨"u1", "Task", none, some 1000, some 2000, some 60, some .M,
        some "l1", some "g1", some .Scheduled, .overdue, 0, some "Old",
        some "Old"⟩] "America/New_York").map (·.type)
      = [OperationType.patchGCalEvent]) ∧
    (diff [⟨"u1", "Task", none, some 1000, some 2000, some 60, some .M,
        some "l1", some "g1", some .Scheduled, .overdue, 0, some "Old",
        some "Old"⟩] "America/New_York").length ≠ 2 := by
  decide

/-- Claim C4 (amended): for every overdue item with an event id, the
current diff engine emits exactly one operation, a reschedule patch of the
original event with start and end cleared for the actuator scheduler,
preserving uid, event id and issue link, and re-prefixing the title only
when the issue is still Scheduled; the legacy diff engine is the version
that emits the claimed pair of operations, a copy-to-history retitled with
the carried-over glyph followed by the reschedule patch. -/
theorem C4_overdue_operations :
    (∀ (item : CanonicalItem) (tz : String),
      item.phase = .overdue → strTruthy item.gcalId = true →
      generateOperationsForItem item tz
        = [⟨.patchGCalEvent,
            { item with
              startTime := none,
              endTime := none,
              title := if item.linearState = some .Scheduled then
                  addPrefix item.title PREFIX_SCHEDULED
                else item.title },
            "Rescheduling overdue event to new time slot"⟩]) ∧
    (∀ (item : CanonicalItem) (now : Int),
      item.phase = .overdue → strTruthy item.gcalId = true →
      generateOperationsForItemV1 item now
        = [⟨.copyEventToHistory,
            { item with title := addPrefix item.title PREFIX_WORKED },
            "Copying overdue event to history calendar with worked on (⏳) prefix"⟩,
           ⟨.patchGCalEvent,
            { item with
              startTime := some (getDefaultStartTimeV1 now),
              endTime := some (getDefaultEndTimeV1 (getDefaultStartTimeV1 now)
                item.estimate),
              title := if item.linearState = some .Scheduled then
                  addPrefix item.title PREFIX_SCHEDULED
                else item.title },
            "Rescheduling overdue event to new time slot"⟩]) := by
  constructor
  · intro item tz hph hg
    simp [generateOperationsForItem, hph, hg]
  · intro item now hph hg
    simp [generateOperationsForItemV1, hph, hg]

/-- Witness for C4 at a concrete overdue item. -/
theorem C4_witness :
    generateOperationsForItem
        ⟨"u1", "Task", none, some 1000, some 2000, some 60, some .M,
          some "l1", some "g1", some .Scheduled, .overdue, 0, some "Old",
          some "Old"⟩ "UTC"
      = [⟨.patchGCalEvent,
          ⟨"u1", addPrefix "Task" PREFIX_SCHEDULED, none, none, none,
            some 60, some .M, some "l1", some "g1", some .Scheduled,
            .overdue, 0, some "Old", some "Old"⟩,
          "Rescheduling overdue event to new time slot"⟩] := by
  rw [C4_overdue_operations.1 _ "UTC" rfl (by decide)]
  decide

/-- Claim C5 counterexample: the event title carries the Done glyph prefix
yet differs from the expected retitled value, and the diff engine still
emits a patch operation, refuting the claimed glyph-presence test. -/
theorem C5_counterexample :
    PREFIX_DONE.data.isPrefixOf (PREFIX_DONE ++ "Other").data = true ∧
    generateOperationsForItem
        ⟨"u1", "Task", none, some 1000, some 2000, some 60, some .M,
          some "l1", some "g1", some .Done, .completed, 0,
          some (PREFIX_DONE ++ "Other"), some "Old"⟩ "UTC" ≠ [] := by
  decide

/-- Claim C5 (amended): for every completed item with an event id and an
issue state, the diff engine emits the patch if and only if the current
event title differs from the expected retitled value, which is the state
glyph prepended to the stripped canonical title; equality of full titles,
not mere glyph presence, is the idempotence test.  The three terminal
states map to three distinct glyph prefixes. -/
theorem C5_completed_idempotence :
    (∀ (item : CanonicalItem) (tz : String) (s : LinearState),
      item.phase = .completed → strTruthy item.gcalId = true →
      item.linearState = some s →
      generateOperationsForItem item tz
        = if item.currentGCalTitle
              ≠ some (addPrefix item.title (getCompletionPrefix s)) then
            [⟨.patchGCalEvent,
              { item with
                title := addPrefix item.title (getCompletionPrefix s) },
              "Linear issue marked as " ++ stateName s⟩]
          else []) ∧
    getCompletionPrefix .Done ≠ getCompletionPrefix .Canceled ∧
    getCompletionPrefix .Done ≠ getCompletionPrefix .Failed ∧
    getCompletionPrefix .Canceled ≠ getCompletionPrefix .Failed := by
  refine ⟨?_, by decide, by decide, by decide⟩
  intro item tz s hph hg hs
  simp [generateOperationsForItem, hph, hg, hs]

/-- Witness for C5: a completed pair whose event title lacks the glyph gets
one patch, and the same pair already carrying the exact expected title gets
none. -/
theorem C5_witness :
    (generateOperationsForItem
        ⟨"u1", "Task", none, none, none, none, none, some "l1", some "g1",
          some .Done, .completed, 0, some "Task", none⟩ "UTC"
      = [⟨.patchGCalEvent,
          ⟨"u1", addPrefix "Task" (getCompletionPrefix .Done), none, none,
            none, none, none, some "l1", some "g1", some .Done, .completed,
            0, some "Task", none⟩,
          "Linear issue marked as " ++ stateName .Done⟩]) ∧
    (generateOperationsForItem
        ⟨"u1", "Task", none, none, none, none, none, some "l1", some "g1",
          some .Done, .completed, 0,
          some (addPrefix "Task" (getCompletionPrefix .Done)), none⟩ "UTC"
      = []) := by
  constructor
  · rw [C5_completed_idempotence.1 _ "UTC" .Done rfl (by decide) rfl]
    decide
  · rw [C5_completed_idempotence.1 _ "UTC" .Done rfl (by decide) rfl]
    decide

/-! ## Model of src/actuator.ts -/

/-- The Google Calendar event link marker that cleanDescription filters
on. -/
def oldEventLinkMarker : String :=
  "https://calendar.google.com/calendar/event?eid="

/-- Model of the JS includes function on char lists. -/
def includesSub (pat : List Char) : List Char → Bool
  | [] => pat.isEmpty
  | c :: cs => pat.isPrefixOf (c :: cs) || includesSub pat cs

/-- Split on every newline, the model of the JS split function with a
newline separator. -/
def splitNlAux (cur : List Char) : List Char → List (List Char)
  | [] => [cur.reverse]
  | c :: cs =>
      if c = '\n' then cur.reverse :: splitNlAux [] cs
      else splitNlAux (c :: cur) cs

/-- Lines of a char list. -/
def splitNl (l : List Char) : List (List Char) := splitNlAux [] l

/-- Model of actuator.ts cleanDescription: drop every line containing a
Google Calendar event link, rejoin, trim. -/
def cleanDescription (description : String) : String :=
  jsTrim ⟨List.intercalate ['\n']
    ((splitNl description.data).filter
      (fun line => !(includesSub oldEventLinkMarker.data line)))⟩

/-- The calendar-sync tag as interpolated by the actuator from a canonical
item, whose start time and duration are numbers in the model. -/
def calendarSyncTagInt (gid : String) (st dm : Int) : String :=
  "<!-- calendar-sync --> GoogleCalEventId:" ++ gid ++
    " | Start:" ++ intToDecStr st ++ " | DurMin:" ++ intToDecStr dm

/-- Model of the issue-description construction shared verbatim by
actuator.ts createLinearIssue and patchLinearIssue, and by
createGCalEventAndUpdateLinear with the created event id in place of the
item event id: start from the item description (or empty), and when event
id, start time and duration are all truthy, prepend the calendar-sync tag
separated by a blank line.  Nothing is stripped from the prior
description. -/
def linearIssueDescription (item : CanonicalItem) : String :=
  let description := match item.description with | some d => d | none => ""
  match item.gcalId, item.startTime, item.durationMin with
  | some gid, some st, some dm =>
      if gid ≠ "" ∧ dm ≠ 0 then
        let metadata := calendarSyncTagInt gid st dm
        if description ≠ "" then metadata ++ "\n\n" ++ description
        else metadata
      else description
  | _, _, _ => description

/-- Model of the event-description construction shared by actuator.ts
createGCalEvent, patchGCalEvent and createRescheduledEvent: clean the item
description of old event links, then prepend the Linear navigation link
when an issue id is present. -/
def gcalEventDescription (item : CanonicalItem) : String :=
  let rawDescription :=
    cleanDescription (match item.description with | some d => d | none => "")
  match item.linearId with
  | some lid =>
      if lid ≠ "" then
        let linearLink := "Linear issue: [" ++ lid ++
          "](https://linear.app/liamhorne/issue/" ++ lid ++ ")"
        if rawDescription ≠ "" then linearLink ++ "\n\n" ++ rawDescription
        else linearLink
      else rawDescription
  | none => rawDescription

/-- Result record of actuator.ts ExecutionResult, with the value type
abstracted over the union of issue and event payloads. -/
structure ExecutionResult (ρ : Type) where
  operation : Operation
  success : Bool
  result : Option ρ
  error : Option String
deriving DecidableEq, Repr

/-- Model of the actuator.ts execute loop over an abstract per-operation
executor standing for executeOperation with the injected clients: on a
world state it either returns a value (possibly null, as for noop) or
throws with a message, and in both cases leaves a successor world state,
capturing partial API effects of a failed composite operation. -/
def Actuator.execute {σ ρ : Type}
    (step : Operation → σ → Except String (Option ρ) × σ) :
    List Operation → σ → List (ExecutionResult ρ) × σ
  | [], s => ([], s)
  | op :: ops, s =>
      let r := step op s
      let rest := Actuator.execute step ops r.2
      match r.1 with
      | .ok v => (⟨op, true, v, none⟩ :: rest.1, rest.2)
      | .error e => (⟨op, false, none, some e⟩ :: rest.1, rest.2)

/-- World state reached after executing a list of operations, independent
of whether any of them threw. -/
def Actuator.stateAfter {σ ρ : Type}
    (step : Operation → σ → Except String (Option ρ) × σ)
    (ops : List Operation) (s : σ) : σ :=
  ops.foldl (fun s op => (step op s).2) s

theorem Actuator.execute_cons {σ ρ : Type}
    (step : Operation → σ → Except String (Option ρ) × σ)
    (op : Operation) (ops : List Operation) (s : σ) :
    Actuator.execute step (op :: ops) s
      = match (step op s).1 with
        | .ok v =>
            (⟨op, true, v, none⟩ ::
              (Actuator.execute step ops (step op s).2).1,
             (Actuator.execute step ops (step op s).2).2)
        | .error e =>
            (⟨op, false, none, some e⟩ ::
              (Actuator.execute step ops (step op s).2).1,
             (Actuator.execute step ops (step op s).2).2) := rfl

theorem Actuator.execute_length {σ ρ : Type}
    (step : Operation → σ → Except String (Option ρ) × σ)
    (ops : List Operation) (s0 : σ) :
    (Actuator.execute step ops s0).1.length = ops.length := by
  induction ops generalizing s0 with
  | nil => rfl
  | cons op ops ih =>
      rw [Actuator.execute_cons]
      cases hr : (step op s0).1 <;> simp [ih]

theorem Actuator.execute_get {σ ρ : Type}
    (step : Operation → σ → Except String (Option ρ) × σ) :
    ∀ (ops : List Operation) (s0 : σ) (i : Nat) (op : Operation),
      ops.get? i = some op →
      (Actuator.execute step ops s0).1.get? i
        = some (match (step op
              (Actuator.stateAfter step (List.take i ops) s0)).1 with
          | .ok v => ⟨op, true, v, none⟩
          | .error e => ⟨op, false, none, some e⟩) := by
  intro ops
  induction ops with
  | nil => intro s0 i op h; simp at h
  | cons op0 ops ih =>
      intro s0 i op h
      cases i with
      | zero =>
          simp only [List.get?] at h
          cases h
          rw [Actuator.execute_cons]
          cases hr : (step op0 s0).1 with
          | ok v => simp [hr, Actuator.stateAfter]
          | error e => simp [hr, Actuator.stateAfter]
      | succ i =>
          simp only [List.get?] at h
          rw [Actuator.execute_cons]
          have hstate :
              Actuator.stateAfter step (List.take (i + 1) (op0 :: ops)) s0
                = Actuator.stateAfter step (List.take i ops) (step op0 s0).2 := by
            simp [Actuator.stateAfter, List.take_succ_cons]
          cases hr : (step op0 s0).1 with
          | ok v =>
              simpa [hstate] using ih (step op0 s0).2 i op h
          | error e =>
              simpa [hstate] using ih (step op0 s0).2 i op h

/-- Claim C7: the execute loop returns one result per operation in input
order; a throwing operation yields success false, a null result and a
nonempty error while later operations still run against the world state
the failed one left behind, exactly as they would have; a successful
operation yields success true and a null error. -/
theorem C7_execute_isolated {σ ρ : Type}
    (step : Operation → σ → Except String (Option ρ) × σ)
    (ops : List Operation) (s0 : σ) :
    ((Actuator.execute step ops s0).1.length = ops.length) ∧
    (∀ (i : Nat) (op : Operation), ops.get? i = some op →
      (Actuator.execute step ops s0).1.get? i
        = some (match (step op
              (Actuator.stateAfter step (List.take i ops) s0)).1 with
          | .ok v => ⟨op, true, v, none⟩
          | .error e => ⟨op, false, none, some e⟩)) :=
  ⟨Actuator.execute_length step ops s0, fun i op h =>
    Actuator.execute_get step ops s0 i op h⟩

/-- A minimal canonical item used by concrete witnesses. -/
def nItem : CanonicalItem :=
  ⟨"u", "t", none, none, none, none, none, none, none, none, .active, 0,
    none, none⟩

/-- Witness for C7: three operations against a world counter; the second
throws, its result records the failure, and the third still runs on the
state the second left. -/
theorem C7_witness :
    (Actuator.execute
        (fun _ s =>
          (if s = 1 then Except.error "boom" else Except.ok (some s), s + 1))
        [⟨.noop, nItem, "a"⟩, ⟨.noop, nItem, "b"⟩, ⟨.noop, nItem, "c"⟩]
        0).1.get? 1
      = some ⟨⟨.noop, nItem, "b"⟩, false, none, some "boom"⟩ := by
  rw [(C7_execute_isolated
      (fun _ s =>
        (if s = 1 then Except.error "boom" else Except.ok (some s), s + 1))
      [⟨.noop, nItem, "a"⟩, ⟨.noop, nItem, "b"⟩, ⟨.noop, nItem, "c"⟩]
      0).2 1 ⟨.noop, nItem, "b"⟩ rfl]
  rfl

/-! ## Support for the issue-description accumulation analysis (claim C6) -/

theorem char_eq_of_toNat {c d : Char} (h : c.toNat = d.toNat) : c = d := by
  have hc := Char.ofNat_toNat c
  rw [← hc, h, Char.ofNat_toNat]

theorem char_ne_of_toNat {c d : Char} (h : c.toNat ≠ d.toNat) : c ≠ d :=
  fun he => h (by rw [he])

theorem isJsWs_false_of_toNat {c : Char} (h1 : 45 ≤ c.toNat)
    (h2 : c.toNat ≤ 57) : isJsWs c = false := by
  have e1 : (' ' : Char).toNat = 32 := rfl
  have e2 : ('\t' : Char).toNat = 9 := rfl
  have e3 : ('\n' : Char).toNat = 10 := rfl
  have e4 : ('\r' : Char).toNat = 13 := rfl
  simp only [isJsWs, Bool.or_eq_false_iff, decide_eq_false_iff_not,
    Bool.and_eq_false_iff, decide_eq_false_iff_not]
  refine ⟨⟨⟨⟨⟨⟨⟨⟨⟨⟨⟨⟨⟨⟨?_, ?_⟩, ?_⟩, ?_⟩, ?_⟩, ?_⟩, ?_⟩, ?_⟩, ?_⟩, ?_⟩,
    ?_⟩, ?_⟩, ?_⟩, ?_⟩, ?_⟩
  all_goals first
  | exact char_ne_of_toNat (by omega)
  | omega
  | exact Or.inl (by omega)

theorem isIdChar_of_range {c : Char} (h1 : 45 ≤ c.toNat)
    (h2 : c.toNat ≤ 57) : isIdChar c = true := by
  have e1 : ('|' : Char).toNat = 124 := rfl
  simp only [isIdChar, Bool.and_eq_true, Bool.not_eq_true',
    decide_eq_true_eq]
  exact ⟨isJsWs_false_of_toNat h1 h2, char_ne_of_toNat (by omega)⟩

theorem digit_toNat {c : Char} (h : isDigitCh c = true) :
    48 ≤ c.toNat ∧ c.toNat ≤ 57 := by
  simp [isDigitCh, Char.le_def] at h
  exact ⟨h.1, h.2⟩

theorem isIdChar_of_digit {c : Char} (h : isDigitCh c = true) :
    isIdChar c = true := by
  obtain ⟨h1, h2⟩ := digit_toNat h
  exact isIdChar_of_range (by omega) h2

theorem intToDecStr_good (st : Int) : goodToken (intToDecStr st) := by
  have hdash : ('-' : Char).toNat = 45 := rfl
  unfold intToDecStr
  split
  · constructor
    · rw [show ("-" ++ natToDecStr (-st).toNat).data
          = '-' :: natToDec (-st).toNat from rfl]
      simp
    · intro c hc
      rw [show ("-" ++ natToDecStr (-st).toNat).data
          = '-' :: natToDec (-st).toNat from rfl] at hc
      rcases List.mem_cons.mp hc with hc | hc
      · subst hc; exact isIdChar_of_range (by omega) (by omega)
      · exact isIdChar_of_digit (natToDec_digits _ c hc)
  · exact ⟨natToDec_ne_nil _, fun c hc =>
      isIdChar_of_digit (natToDec_digits _ c hc)⟩

theorem matchCalTagAt_cons_ne {c : Char} (x : List Char)
    (h : lowerAscii c ≠ lowerAscii '<') : matchCalTagAt (c :: x) = none := by
  have hlit : litCI ("<!--" : String).data (c :: x) = none := by
    rw [show ("<!--" : String).data = '<' :: '!' :: '-' :: '-' :: [] from
      rfl]
    simp [litCI, h]
  simp [matchCalTagAt, hlit]

theorem searchAllCalTags_cons_skip {c : Char} {x : List Char}
    (h : matchCalTagAt (c :: x) = none) :
    searchAllCalTags (c :: x) = searchAllCalTags x := by
  rw [searchAllCalTags_eq (c :: x), searchAllCalTags_eq x]
  rw [show searchCalTag (c :: x) = searchCalTag x by
    simp [searchCalTag, h]]

theorem searchAllCalTags_tag_prepend {m : ParsedCalendarMetadata}
    {tagData rest : List Char} (hne : tagData ≠ [])
    (hmatch : matchCalTagAt (tagData ++ rest) = some (m, rest)) :
    searchAllCalTags (tagData ++ rest) = m :: searchAllCalTags rest := by
  have hne2 : tagData ++ rest ≠ [] := by
    cases tagData with
    | nil => exact absurd rfl hne
    | cons a t => simp
  have hs := searchCalTag_of_matchAt hne2 hmatch
  rw [searchAllCalTags_eq, hs]

theorem calendarSyncTagInt_eq (gid : String) (st dm : Int) (h : 0 ≤ dm) :
    calendarSyncTagInt gid st dm
      = calendarSyncTag gid (intToDecStr st) dm.toNat := by
  have hdm : intToDecStr dm = natToDecStr dm.toNat := by
    unfold intToDecStr
    rw [if_neg (by omega)]
  unfold calendarSyncTagInt calendarSyncTag
  rw [hdm]

theorem calendarSyncTag_data_append (gid st : String) (n : Nat)
    (suffix : List Char) :
    (calendarSyncTag gid st n).data ++ suffix
      = "<!--".data ++ ' ' ::
          ("calendar-sync".data ++ ' ' ::
            ("-->".data ++ ' ' ::
              ("GoogleCalEventId:".data ++
                (gid.data ++ ' ' ::
                  ("|".data ++ ' ' ::
                    ("Start:".data ++
                      (st.data ++ ' ' ::
                        ("|".data ++ ' ' ::
                          ("DurMin:".data ++ (natToDec n ++ suffix)))))))))) := by
  rw [calendarSyncTag_data]
  simp only [List.append_assoc, List.cons_append]

theorem searchAllCalTags_nil : searchAllCalTags [] = [] := rfl

theorem linearIssueDescription_parse (item : CanonicalItem) (gid : String)
    (st dm : Int) (hgid : item.gcalId = some gid) (hgood : goodToken gid)
    (hst : item.startTime = some st) (hdm : item.durationMin = some dm)
    (hdmpos : 0 < dm) :
    parseAllCalendarMetadataFromDescription
        (some (linearIssueDescription item))
      = ⟨gid, intToDecStr st, dm.toNat⟩
          :: parseAllCalendarMetadataFromDescription item.description := by
  have hgne : gid ≠ "" := by
    intro he
    apply hgood.1
    rw [he]
  have htag := calendarSyncTagInt_eq gid st dm (le_of_lt hdmpos)
  have hstgood := intToDecStr_good st
  have hmatch : ∀ suffix : List Char,
      span1 isDigitCh (natToDec dm.toNat ++ suffix)
        = some (natToDec dm.toNat, suffix) →
      matchCalTagAt
          ((calendarSyncTag gid (intToDecStr st) dm.toNat).data ++ suffix)
        = some (⟨gid, intToDecStr st, parseDigits (natToDec dm.toNat)⟩,
            suffix) := by
    intro suffix hspan
    rw [calendarSyncTag_data_append]
    exact matchCalTagAt_shape gid.data (intToDecStr st).data
      (natToDec dm.toNat) suffix hgood.1 hgood.2 hstgood.1 hstgood.2 hspan
  have hdne := calendarSyncTag_data_ne_nil gid (intToDecStr st) dm.toNat
  have htagne : calendarSyncTag gid (intToDecStr st) dm.toNat ≠ "" := by
    intro he
    rw [he] at hdne
    exact hdne rfl
  have hmatch0 :
      matchCalTagAt (calendarSyncTag gid (intToDecStr st) dm.toNat).data
        = some (⟨gid, intToDecStr st, parseDigits (natToDec dm.toNat)⟩,
            []) := by
    have := hmatch []
      (by rw [List.append_nil]
          exact span1_all (natToDec_digits _) (natToDec_ne_nil _))
    rwa [List.append_nil] at this
  have hparse0 :
      searchAllCalTags (calendarSyncTag gid (intToDecStr st) dm.toNat).data
        = [⟨gid, intToDecStr st, parseDigits (natToDec dm.toNat)⟩] := by
    rw [searchAllCalTags_eq, searchCalTag_of_matchAt hdne hmatch0]
    rfl
  unfold linearIssueDescription
  rw [hgid, hst, hdm]
  dsimp only
  rw [if_pos ⟨hgne, by omega⟩, htag]
  cases hdesc : item.description with
  | none =>
      dsimp only
      rw [if_neg (by simp)]
      show parseAllCalendarMetadataFromDescription
          (some (calendarSyncTag gid (intToDecStr st) dm.toNat)) = _
      simp only [parseAllCalendarMetadataFromDescription, htagne, if_neg,
        hparse0, parseDigits_natToDec]
      rfl
  | some d =>
      by_cases hd : d = ""
      · subst hd
        dsimp only
        rw [if_neg (by simp)]
        show parseAllCalendarMetadataFromDescription
            (some (calendarSyncTag gid (intToDecStr st) dm.toNat)) = _
        simp only [parseAllCalendarMetadataFromDescription, htagne, if_neg,
          hparse0, parseDigits_natToDec]
        rfl
      · dsimp only
        rw [if_pos hd]
        have hdata2 :
            (calendarSyncTag gid (intToDecStr st) dm.toNat ++ "\n\n"
                ++ d).data
              = (calendarSyncTag gid (intToDecStr st) dm.toNat).data
                  ++ ('\n' :: '\n' :: d.data) := by
          simp [data_append, List.append_assoc]
        have hwhole :
            calendarSyncTag gid (intToDecStr st) dm.toNat ++ "\n\n" ++ d
              ≠ "" := by
          intro he
          have : (calendarSyncTag gid (intToDecStr st) dm.toNat ++ "\n\n"
              ++ d).data = [] := by rw [he]
          rw [hdata2] at this
          rcases List.append_eq_nil.mp this with ⟨h1, _⟩
          exact hdne h1
        have hspan2 : span1 isDigitCh
            (natToDec dm.toNat ++ ('\n' :: '\n' :: d.data))
              = some (natToDec dm.toNat, '\n' :: '\n' :: d.data) :=
          span1_token _ (natToDec_digits _) (natToDec_ne_nil _) rfl
        have hmatch2 := hmatch _ hspan2
        have hsearch2 := searchAllCalTags_tag_prepend hdne hmatch2
        have hnl : lowerAscii '\n' ≠ lowerAscii '<' := by decide
        have hskip1 := searchAllCalTags_cons_skip
          (matchCalTagAt_cons_ne ('\n' :: d.data) hnl)
        have hskip2 := searchAllCalTags_cons_skip
          (matchCalTagAt_cons_ne d.data hnl)
        simp only [parseAllCalendarMetadataFromDescription, hwhole, if_neg,
          hdata2, hsearch2, hskip1, hskip2, parseDigits_natToDec, hd]
        rfl

theorem includesSub_iff (pat : List Char) (l : List Char) :
    includesSub pat l = true ↔ pat <:+: l := by
  induction l with
  | nil =>
      simp [includesSub, List.isEmpty_iff]
  | cons c cs ih =>
      simp only [includesSub, Bool.or_eq_true, ih,
        List.isPrefixOf_iff_prefix, List.infix_cons_iff]

theorem includesSub_mono {pat x y : List Char} (hxy : x <:+: y)
    (h : includesSub pat y = false) : includesSub pat x = false := by
  by_contra hx
  rw [Bool.not_eq_false, includesSub_iff] at hx
  rw [← Bool.not_eq_true, includesSub_iff] at h
  exact h (hx.trans hxy)

theorem jsTrimList_within (l : List Char) : jsTrimList l <:+: l := by
  have h1 : trimEndList (l.dropWhile isJsWs) <+: l.dropWhile isJsWs :=
    trimEndList_prefix _
  have h2 : l.dropWhile isJsWs <:+ l := List.dropWhile_suffix _
  rw [jsTrimList_eq]
  exact h1.isInfix.trans h2.isInfix

theorem pat_head_not_nl {pat : List Char} (hne : pat ≠ [])
    (hnl : '\n' ∉ pat) (y : List Char) :
    pat.isPrefixOf ('\n' :: y) = false := by
  cases pat with
  | nil => exact absurd rfl hne
  | cons p ps =>
      by_cases hp : p = '\n'
      · subst hp; exact absurd (by simp) hnl
      · simp [List.isPrefixOf, hp]

theorem includesSub_append_nl {pat : List Char} (hne : pat ≠ [])
    (hnl : '\n' ∉ pat) (x y : List Char)
    (hx : includesSub pat x = false) (hy : includesSub pat y = false) :
    includesSub pat (x ++ '\n' :: y) = false := by
  induction x with
  | nil =>
      simp only [List.nil_append, includesSub, Bool.or_eq_false_iff]
      exact ⟨pat_head_not_nl hne hnl y, hy⟩
  | cons c x ih =>
      simp only [includesSub, Bool.or_eq_false_iff] at hx
      simp only [List.cons_append, includesSub, Bool.or_eq_false_iff]
      refine ⟨?_, ih hx.2⟩
      by_contra hpre
      rw [Bool.not_eq_false, List.isPrefixOf_iff_prefix] at hpre
      by_cases hlen : pat.length ≤ (c :: x).length
      · have hcx : (c :: x) <+: (c :: x) ++ '\n' :: y := List.prefix_append _ _
        have : pat <+: c :: x := by
          have := List.prefix_of_prefix_length_le hpre hcx hlen
          simpa using this
        rw [← List.isPrefixOf_iff_prefix] at this
        simp [this] at hx
      · push_neg at hlen
        have hgetp := hpre
        obtain ⟨t, ht⟩ := hgetp
        have hidx : (c :: x).length < pat.length := hlen
        have hchar : pat.get ⟨(c :: x).length, hidx⟩ = '\n' := by
          have hfull : (pat ++ t).get? (c :: x).length = some '\n' := by
            rw [ht, List.length_cons]
            show (x ++ '\n' :: y).get? x.length = some '\n'
            rw [List.get?_append_right (Nat.le_refl _)]
            simp
          have hga : (pat ++ t).get? (c :: x).length
              = pat.get? (c :: x).length := List.get?_append hidx
          rw [hga] at hfull
          have := List.get?_eq_get hidx
          rw [this] at hfull
          exact Option.some_inj.mp hfull
        exact hnl (hchar ▸ List.get_mem pat ((c :: x).length) hidx)

theorem no_occur_intercalate {pat : List Char} (hne : pat ≠ [])
    (hnl : '\n' ∉ pat) :
    ∀ ls : List (List Char), (∀ l ∈ ls, includesSub pat l = false) →
      includesSub pat (List.intercalate ['\n'] ls) = false := by
  intro ls
  induction ls with
  | nil =>
      intro _
      simp [List.intercalate, includesSub, List.isEmpty_iff, hne]
  | cons a ls ih =>
      intro h
      cases ls with
      | nil =>
          rw [show List.intercalate ['\n'] [a] = a by
            simp [List.intercalate, List.intersperse]]
          exact h a (by simp)
      | cons b rest =>
          rw [show List.intercalate ['\n'] (a :: b :: rest)
              = a ++ '\n' :: List.intercalate ['\n'] (b :: rest) by
            simp [List.intercalate, List.intersperse]]
          exact includesSub_append_nl hne hnl _ _ (h a (by simp))
            (ih (fun l hl => h l (by simp [hl])))

/-- The event-side writers strip old event links: the cleaned description
contains no occurrence of the Google Calendar event link marker. -/
theorem cleanDescription_no_marker (d : String) :
    includesSub oldEventLinkMarker.data (cleanDescription d).data = false := by
  have hne : oldEventLinkMarker.data ≠ [] := by decide
  have hnl : '\n' ∉ oldEventLinkMarker.data := by decide
  have hkept : ∀ l ∈ (splitNl d.data).filter
      (fun line => !(includesSub oldEventLinkMarker.data line)),
      includesSub oldEventLinkMarker.data l = false := by
    intro l hl
    have := (List.mem_filter.mp hl).2
    simpa using this
  have hinter := no_occur_intercalate hne hnl _ hkept
  exact includesSub_mono (jsTrimList_within _) hinter

set_option maxRecDepth 4000 in
/-- Claim C6 counterexample: patching a Linear issue whose description
already embeds a calendar-sync tag writes a description carrying two
recognized cross-reference tags, because the issue-side writers strip
nothing from the prior text. -/
theorem C6_counterexample :
    (parseAllCalendarMetadataFromDescription
        (some (linearIssueDescription
          ⟨"u1", "T",
            some ("<!-- calendar-sync --> GoogleCalEventId:old1 | " ++
              "Start:100 | DurMin:30"),
            some 100, some 160, some 30, some .S, some "l1", some "new1",
            some .Scheduled, .active, 0, none, none⟩))).length = 2 := by
  decide

/-- Claim C6 (amended): only the event-description writers strip previously
embedded cross-references, and only Google Calendar event links; the
written event description contains no event-link marker.  The
issue-description writers (createLinearIssue, patchLinearIssue and the
Linear update of createGCalEventAndUpdateLinear) prepend a fresh
calendar-sync tag and keep the prior text verbatim, so every tag already
embedded there survives and tags accumulate across reschedules. -/
theorem C6_description_stripping :
    (∀ (item : CanonicalItem) (gid : String) (st dm : Int),
      item.gcalId = some gid → goodToken gid → item.startTime = some st →
      item.durationMin = some dm → 0 < dm →
      parseAllCalendarMetadataFromDescription
          (some (linearIssueDescription item))
        = ⟨gid, intToDecStr st, dm.toNat⟩
            :: parseAllCalendarMetadataFromDescription item.description) ∧
    (∀ d : String,
      includesSub oldEventLinkMarker.data (cleanDescription d).data
        = false) :=
  ⟨fun item gid st dm h1 h2 h3 h4 h5 =>
    linearIssueDescription_parse item gid st dm h1 h2 h3 h4 h5,
   cleanDescription_no_marker⟩

/-- Witness for C6 at a concrete item with prior notes. -/
theorem C6_witness :
    parseAllCalendarMetadataFromDescription
        (some (linearIssueDescription
          ⟨"u", "T", some "notes", some 100, none, some 30, none,
            some "l1", some "ev9", none, .active, 0, none, none⟩))
      = ⟨"ev9", intToDecStr 100, Int.toNat 30⟩
          :: parseAllCalendarMetadataFromDescription (some "notes") :=
  C6_description_stripping.1
    ⟨"u", "T", some "notes", some 100, none, some 30, none, some "l1",
      some "ev9", none, .active, 0, none, none⟩
    "ev9" 100 30 rfl (by decide) rfl rfl (by decide)

/-! ## Model of src/scheduler.ts

Timestamps are milliseconds in the configured zone, treated as a fixed
offset.  The dayjs date-only comparisons via format become day-floor
comparisons, startOf and endOf day become the day floor and the day floor
plus one day minus one millisecond, and a dayjs call on an undefined
dateTime yields the current time, threaded here as an explicit now. -/

/-- Start of the civil day containing a timestamp. -/
def dayFloor (t : Int) : Int := Int.fdiv t 86400000 * 86400000

/-- Day of week with Sunday as zero; the epoch day was a Thursday. -/
def dayOfWeek (t : Int) : Int := Int.emod (Int.fdiv t 86400000 + 4) 7

/-- The dayjs constructor on an optional dateTime: an absent value yields
the current time. -/
def tsOrNow (o : Option Int) (now : Int) : Int :=
  match o with
  | some t => t
  | none => now

/-- A scheduler result slot (scheduler.ts TimeSlot). -/
structure TimeSlot where
  startTime : Int
  endTime : Int
deriving DecidableEq, Repr

/-- A scheduling request (scheduler.ts SchedulingRequest). -/
structure SchedulingRequest where
  estimate : LinearEstimate
  preferredDate : Option Int
  title : String
deriving DecidableEq, Repr

/-- Model of scheduler.ts getEventsForDate. -/
def getEventsForDate (date : Int) (events : List GCalEvent) (now : Int) :
    List GCalEvent :=
  events.filter (fun event =>
    let eventStart := tsOrNow event.start.dateTime now
    let eventEnd := tsOrNow event.endT.dateTime now
    dayFloor eventStart = dayFloor date ∨ dayFloor eventEnd = dayFloor date
      ∨ (eventStart < dayFloor date ∧ dayFloor date + 86399999 < eventEnd))

/-- The gap search of scheduler.ts findSlotOnDate over consecutive sorted
events. -/
def findGapSlot (now durationMin : Int) : List GCalEvent → Option TimeSlot
  | a :: b :: rest =>
      let currentEventEnd := tsOrNow a.endT.dateTime now
      let nextEventStart := tsOrNow b.start.dateTime now
      if durationMin ≤ Int.tdiv (nextEventStart - currentEventEnd) 60000 then
        some ⟨currentEventEnd, currentEventEnd + durationMin * 60000⟩
      else findGapSlot now durationMin (b :: rest)
  | _ => none

/-- Model of scheduler.ts findSlotOnDate: before the first event, in gaps,
after the last event, never exceeding the working day end except in the
first two candidate forms, exactly as the source computes them. -/
def findSlotOnDate (cfg : SyncConfig) (now date durationMin : Int)
    (existingEvents : List GCalEvent) : Option TimeSlot :=
  let dayStart := setHMS0 date cfg.workingHours.startHour
  let dayEnd := setHMS0 date cfg.workingHours.endHour
  let dayEvents := (getEventsForDate date existingEvents now).mergeSort
    (fun a b => tsOrNow a.start.dateTime now ≤ tsOrNow b.start.dateTime now)
  match h : dayEvents with
  | [] => some ⟨dayStart, dayStart + durationMin * 60000⟩
  | first :: _ =>
      let firstEventStart := tsOrNow first.start.dateTime now
      if durationMin ≤ Int.tdiv (firstEventStart - dayStart) 60000 then
        some ⟨dayStart, dayStart + durationMin * 60000⟩
      else
        match findGapSlot now durationMin dayEvents with
        | some slot => some slot
        | none =>
            let lastEventEnd :=
              tsOrNow (dayEvents.getLast (by rw [h]; simp)).endT.dateTime now
            if durationMin ≤ Int.tdiv (dayEnd - lastEventEnd) 60000 then
              some ⟨lastEventEnd, lastEventEnd + durationMin * 60000⟩
            else none

/-- The search start of scheduler.ts findNextAvailableSlot: the preferred
date when it lies in the future, else tomorrow. -/
def searchStartDate (now : Int) (request : SchedulingRequest) : Int :=
  match request.preferredDate with
  | some pd => if now < pd then pd else now + 86400000
  | none => now + 86400000

/-- The scheduler while loop: starting from a day, skip non-working days,
return the first slot found, give up at the horizon. -/
def schedulerLoop (cfg : SyncConfig) (now durationMin maxSearchDate : Int)
    (events : List GCalEvent) (currentDate : Int) : Option TimeSlot :=
  if h : currentDate < maxSearchDate then
    if cfg.workingHours.workingDays.contains (dayOfWeek currentDate) then
      match findSlotOnDate cfg now currentDate durationMin events with
      | some slot => some slot
      | none =>
          schedulerLoop cfg now durationMin maxSearchDate events
            (currentDate + 86400000)
    else
      schedulerLoop cfg now durationMin maxSearchDate events
        (currentDate + 86400000)
  else none
termination_by (maxSearchDate - currentDate).toNat
decreasing_by
  all_goals omega

/-- Model of scheduler.ts findNextAvailableSlot. -/
def findNextAvailableSlot (cfg : SyncConfig) (now : Int)
    (request : SchedulingRequest) (existingEvents : List GCalEvent) :
    TimeSlot :=
  let durationMin := estimateToDuration request.estimate
  let startSearchDate := searchStartDate now request
  let maxSearchDate := startSearchDate + 14 * 86400000
  match schedulerLoop cfg now durationMin maxSearchDate existingEvents
      (dayFloor startSearchDate) with
  | some slot => slot
  | none =>
      let fallbackStart := setHMS0 maxSearchDate cfg.workingHours.startHour
      ⟨fallbackStart, fallbackStart + durationMin * 60000⟩

/-- If every working day the loop can visit yields no slot, the loop
returns none.  The quantifier ranges over day-aligned dates from the
loop's start. -/
theorem schedulerLoop_none (cfg : SyncConfig) (now dur max : Int)
    (events : List GCalEvent) (cur : Int)
    (hyp : ∀ d : Int, cur ≤ d → d < max → Int.emod (d - cur) 86400000 = 0 →
      cfg.workingHours.workingDays.contains (dayOfWeek d) = true →
      findSlotOnDate cfg now d dur events = none) :
    schedulerLoop cfg now dur max events cur = none := by
  have H : ∀ n : Nat, ∀ c : Int, (max - c).toNat ≤ n →
      (∀ d : Int, c ≤ d → d < max → Int.emod (d - c) 86400000 = 0 →
        cfg.workingHours.workingDays.contains (dayOfWeek d) = true →
        findSlotOnDate cfg now d dur events = none) →
      schedulerLoop cfg now dur max events c = none := by
    intro n
    induction n with
    | zero =>
        intro c hle _
        rw [schedulerLoop]
        have hnlt : ¬ c < max := by omega
        rw [dif_neg hnlt]
    | succ n ih =>
        intro c hle hc
        rw [schedulerLoop]
        by_cases hlt : c < max
        · rw [dif_pos hlt]
          have hnext : ∀ d : Int, c + 86400000 ≤ d → d < max →
              Int.emod (d - (c + 86400000)) 86400000 = 0 →
              cfg.workingHours.workingDays.contains (dayOfWeek d) = true →
              findSlotOnDate cfg now d dur events = none := by
            intro d h1 h2 h3 h4
            refine hc d (by omega) h2 ?_ h4
            have h5 : d - c = d - (c + 86400000) + 1 * 86400000 := by ring
            rw [h5]
            show (d - (c + 86400000) + 1 * 86400000) % 86400000 = 0
            rw [Int.add_mul_emod_self]
            exact h3
          have htail := ih (c + 86400000) (by omega) hnext
          by_cases hwd :
              cfg.workingHours.workingDays.contains (dayOfWeek c) = true
          · rw [if_pos hwd]
            have hnone := hc c (le_refl c) hlt (by rw [sub_self]; rfl) hwd
            rw [hnone]
            exact htail
          · rw [if_neg hwd]
            exact htail
        · rw [dif_neg hlt]
  exact H (max - cur).toNat cur (Nat.le_refl _) hyp

/-- Concrete scheduler fixtures. -/
def cfgW : SyncConfig := ⟨none, "UTC", ⟨9, 17, []⟩, 2, 14⟩

def reqW : SchedulingRequest := ⟨.S, none, "t"⟩

/-- C8: findNextAvailableSlot is total — in this model it is a function
into TimeSlot, with no error outcome in its type — and whenever no
day-aligned working day strictly before the fourteen-day horizon yields a
slot, it returns the fallback slot at the working-hours start hour on the
horizon day, of the requested duration, ignoring conflicts. -/
theorem C8_scheduler_fallback (cfg : SyncConfig) (now : Int)
    (request : SchedulingRequest) (events : List GCalEvent)
    (hyp : ∀ d : Int, dayFloor (searchStartDate now request) ≤ d →
      d < searchStartDate now request + 14 * 86400000 →
      Int.emod (d - dayFloor (searchStartDate now request)) 86400000 = 0 →
      cfg.workingHours.workingDays.contains (dayOfWeek d) = true →
      findSlotOnDate cfg now d (estimateToDuration request.estimate) events
        = none) :
    findNextAvailableSlot cfg now request events =
      ⟨setHMS0 (searchStartDate now request + 14 * 86400000)
          cfg.workingHours.startHour,
        setHMS0 (searchStartDate now request + 14 * 86400000)
            cfg.workingHours.startHour
          + estimateToDuration request.estimate * 60000⟩ := by
  have h := schedulerLoop_none cfg now (estimateToDuration request.estimate)
    (searchStartDate now request + 14 * 86400000) events
    (dayFloor (searchStartDate now request)) hyp
  unfold findNextAvailableSlot
  dsimp only
  rw [h]

/-- Witness: with no working days configured, the hypothesis of the
fallback theorem holds vacuously and the fallback slot is returned. -/
theorem C8_witness :
    findNextAvailableSlot cfgW 0 reqW [] =
      ⟨setHMS0 (searchStartDate 0 reqW + 14 * 86400000)
          cfgW.workingHours.startHour,
        setHMS0 (searchStartDate 0 reqW + 14 * 86400000)
            cfgW.workingHours.startHour
          + estimateToDuration reqW.estimate * 60000⟩ :=
  C8_scheduler_fallback cfgW 0 reqW [] (by
    intro d h1 h2 h3 h4
    simp [cfgW] at h4)

/-! ## Model of src/projector.ts project

A JS Map is modelled as an association list whose set operation updates an
existing key in place and appends a fresh key, matching Map iteration
order; a JS Set of strings is a list queried by membership.  The uuidv4
calls of generateUid are modelled by an explicit stream of draws g and a
counter that advances once per call; a run of the program corresponds to a
choice of stream. -/

/-- JS Map set on an association list: update in place, else append. -/
def setAssoc {α β : Type} [DecidableEq α] :
    List (α × β) → α → β → List (α × β)
  | [], k, v => [(k, v)]
  | (k', v') :: rest, k, v =>
      if k' = k then (k, v) :: rest
      else (k', v') :: setAssoc rest k v

/-- The linearByGCalId index of project: every calendar tag parsed from an
issue description maps its event id to the issue. -/
def buildLinearByGCalId (issues : List LinearIssue) :
    List (String × LinearIssue) :=
  issues.foldl (fun m issue =>
    (parseAllCalendarMetadataFromDescription issue.description).foldl
      (fun m' cm => setAssoc m' cm.gcalId issue) m) []

/-- The gcalByLinearId index of project: the private linearIssueId when
truthy, and the issue id of a Linear link parsed from the event
description.  The linearByIssueKey and gcalByLinearKey indexes of the
source are built the same way but never read afterwards, so they are
omitted here. -/
def buildGcalByLinearId (events : List GCalEvent) :
    List (String × GCalEvent) :=
  events.foldl (fun m event =>
    let m1 :=
      match event.privLinearIssueId with
      | some lid => if lid ≠ "" then setAssoc m lid event else m
      | none => m
    match parseLinearLinkFromDescription event.description with
    | some link => setAssoc m1 link.issueId event
    | none => m1) []

/-- Model of projector.ts createCanonicalItem. -/
def createCanonicalItem (uid : String) (linearIssue : Option LinearIssue)
    (gcalEvent : Option GCalEvent) (now : Int) : CanonicalItem :=
  let title :=
    match linearIssue with
    | some li => stripPrefix li.title
    | none =>
        match gcalEvent with
        | some ge => stripPrefix ge.summary
        | none => "Untitled"
  let description :=
    jsOrStr (linearIssue.bind (·.description)) (gcalEvent.bind (·.description))
  let startTime :=
    tsOr (tsOr (gcalEvent.bind (·.start.dateTime))
        (gcalEvent.bind (·.start.date)))
      (linearIssue.bind (·.targetDate))
  let endTime :=
    tsOr (gcalEvent.bind (·.endT.dateTime)) (gcalEvent.bind (·.endT.date))
  let dur0 : Option Int :=
    match gcalEvent, startTime, endTime with
    | some _, some st, some et => some (Int.tdiv (et - st) 60000)
    | _, _, _ => none
  let est0 : Option LinearEstimate := dur0.map durationToEstimate
  let le : Option Int := linearIssue.bind (·.estimate)
  let dur1 : Option Int :=
    match le with
    | some pts =>
        if pts ≠ 0 then
          if numTruthy dur0 then dur0
          else some (ESTIMATE_DURATIONS (pointsToEstimate pts))
        else dur0
    | none => dur0
  let est1 : Option LinearEstimate :=
    match le with
    | some pts => if pts ≠ 0 then some (pointsToEstimate pts) else est0
    | none => est0
  let est2 : Option LinearEstimate :=
    match est1 with
    | some e => some e
    | none => some .S
  let dur2 : Option Int :=
    match est1 with
    | some _ => dur1
    | none => if numTruthy dur1 then dur1 else some 30
  ⟨uid, title, description, startTime, endTime, dur2, est2,
    linearIssue.map (·.id), gcalEvent.map (·.id),
    linearIssue.map (·.state),
    classifyPhase linearIssue gcalEvent endTime now, now,
    gcalEvent.map (·.summary), linearIssue.map (·.title)⟩

/-- The uid of a linked event, or a fresh draw from the stream, advancing
the counter exactly when generateUid is called; the empty string is falsy
and also triggers a draw. -/
def freshOr (g : Nat → String) (c : Nat) (stored : Option String) :
    String × Nat :=
  match stored with
  | some u => if u ≠ "" then (u, c) else (g c, c + 1)
  | none => (g c, c + 1)

/-- Mutable state of the project function body. -/
structure ProjSt where
  items : List CanonicalItem
  processedLinearIds : List String
  processedGCalIds : List String
  counter : Nat
deriving Repr

/-- One iteration of the first pairing loop of project, over a
gcalByLinearId entry. -/
def projStep1 (g : Nat → String) (issues : List LinearIssue) (now : Int)
    (st : ProjSt) (e : String × GCalEvent) : ProjSt :=
  match issues.find? (fun i => i.id = e.1) with
  | some linked =>
      if linked.id ∉ st.processedLinearIds
          ∧ e.2.id ∉ st.processedGCalIds then
        let p := freshOr g st.counter e.2.privUid
        ⟨st.items ++ [createCanonicalItem p.1 (some linked) (some e.2) now],
          st.processedLinearIds ++ [linked.id],
          st.processedGCalIds ++ [e.2.id], p.2⟩
      else st
  | none => st

/-- One iteration of the second pairing loop of project, over a
linearByGCalId entry. -/
def projStep2 (g : Nat → String) (events : List GCalEvent) (now : Int)
    (st : ProjSt) (e : String × LinearIssue) : ProjSt :=
  match events.find? (fun ev => ev.id = e.1) with
  | some linked =>
      if e.2.id ∉ st.processedLinearIds
          ∧ linked.id ∉ st.processedGCalIds then
        let p := freshOr g st.counter linked.privUid
        ⟨st.items ++ [createCanonicalItem p.1 (some e.2) (some linked) now],
          st.processedLinearIds ++ [e.2.id],
          st.processedGCalIds ++ [linked.id], p.2⟩
      else st
  | none =>
      if e.2.id ∉ st.processedLinearIds then
        ⟨st.items
            ++ [createCanonicalItem (g st.counter) (some e.2) none now],
          st.processedLinearIds ++ [e.2.id],
          st.processedGCalIds, st.counter + 1⟩
      else st

/-- One iteration of the unpaired-issue loop of project. -/
def projStep3 (g : Nat → String) (now : Int) (st : ProjSt)
    (issue : LinearIssue) : ProjSt :=
  if issue.id ∉ st.processedLinearIds then
    ⟨st.items ++ [createCanonicalItem (g st.counter) (some issue) none now],
      st.processedLinearIds ++ [issue.id],
      st.processedGCalIds, st.counter + 1⟩
  else st

/-- One iteration of the unpaired-event loop of project. -/
def projStep4 (g : Nat → String) (now : Int) (st : ProjSt)
    (event : GCalEvent) : ProjSt :=
  if event.id ∉ st.processedGCalIds then
    let p := freshOr g st.counter event.privUid
    ⟨st.items ++ [createCanonicalItem p.1 none (some event) now],
      st.processedLinearIds,
      st.processedGCalIds ++ [event.id], p.2⟩
  else st

/-- Output record of project. -/
structure ProjectorOutput where
  items : List CanonicalItem
  orphanedLinearIssues : List LinearIssue
  orphanedGCalEvents : List GCalEvent
deriving Repr

/-- Model of projector.ts project: build both indexes, run the two pairing
loops and the two orphan loops in source order, then collect leftovers. -/
def project (g : Nat → String) (linearIssues : List LinearIssue)
    (gcalEvents : List GCalEvent) (now : Int) : ProjectorOutput :=
  let linearByGCalId := buildLinearByGCalId linearIssues
  let gcalByLinearId := buildGcalByLinearId gcalEvents
  let st0 : ProjSt := ⟨[], [], [], 0⟩
  let st1 := gcalByLinearId.foldl (projStep1 g linearIssues now) st0
  let st2 := linearByGCalId.foldl (projStep2 g gcalEvents now) st1
  let st3 := linearIssues.foldl (projStep3 g now) st2
  let st4 := gcalEvents.foldl (projStep4 g now) st3
  ⟨st4.items,
    linearIssues.filter (fun i => i.id ∉ st4.processedLinearIds),
    gcalEvents.filter (fun e => e.id ∉ st4.processedGCalIds)⟩

/-! ## Pairing exclusivity of project -/

/-- Two canonical items never share a set linearId nor a set gcalId. -/
def pairExcl (a b : CanonicalItem) : Prop :=
  (∀ x, a.linearId = some x → b.linearId ≠ some x)
    ∧ (∀ y, a.gcalId = some y → b.gcalId ≠ some y)

/-- Loop invariant of project: every set id of an emitted item is
registered in the corresponding processed set, and the emitted items are
pairwise exclusive. -/
def ProjInv (st : ProjSt) : Prop :=
  (∀ it ∈ st.items,
    (∀ x, it.linearId = some x → x ∈ st.processedLinearIds)
      ∧ (∀ y, it.gcalId = some y → y ∈ st.processedGCalIds))
    ∧ st.items.Pairwise pairExcl

theorem ProjInv_push (st : ProjSt) (it : CanonicalItem)
    (lext gext : List String) (c : Nat) (h : ProjInv st)
    (hl : ∀ x, it.linearId = some x →
      x ∉ st.processedLinearIds ∧ x ∈ st.processedLinearIds ++ lext)
    (hg : ∀ y, it.gcalId = some y →
      y ∉ st.processedGCalIds ∧ y ∈ st.processedGCalIds ++ gext) :
    ProjInv ⟨st.items ++ [it], st.processedLinearIds ++ lext,
      st.processedGCalIds ++ gext, c⟩ := by
  obtain ⟨hmem, hpw⟩ := h
  constructor
  · intro a ha
    rcases List.mem_append.mp ha with h1 | h2
    · obtain ⟨ha1, ha2⟩ := hmem a h1
      exact ⟨fun x hx => List.mem_append_left _ (ha1 x hx),
        fun y hy => List.mem_append_left _ (ha2 y hy)⟩
    · have he : a = it := by simpa using h2
      subst he
      exact ⟨fun x hx => (hl x hx).2, fun y hy => (hg y hy).2⟩
  · rw [List.pairwise_append]
    refine ⟨hpw, by simp [List.Pairwise], ?_⟩
    intro a ha b hb
    have hb' : b = it := by simpa using hb
    subst hb'
    obtain ⟨ha1, ha2⟩ := hmem a ha
    constructor
    · intro x hx hx'
      exact (hl x hx').1 (ha1 x hx)
    · intro y hy hy'
      exact (hg y hy').1 (ha2 y hy)

/-- The linearId of a created item is the id of its linked issue. -/
theorem create_linearId (u : String) (li : Option LinearIssue)
    (ge : Option GCalEvent) (now : Int) :
    (createCanonicalItem u li ge now).linearId = li.map (·.id) := rfl

/-- The gcalId of a created item is the id of its linked event. -/
theorem create_gcalId (u : String) (li : Option LinearIssue)
    (ge : Option GCalEvent) (now : Int) :
    (createCanonicalItem u li ge now).gcalId = ge.map (·.id) := rfl

theorem projStep1_inv (g : Nat → String) (issues : List LinearIssue)
    (now : Int) (st : ProjSt) (e : String × GCalEvent) (h : ProjInv st) :
    ProjInv (projStep1 g issues now st e) := by
  unfold projStep1
  cases issues.find? (fun i => i.id = e.1) with
  | none => exact h
  | some linked =>
      dsimp only
      split_ifs with hcond
      · refine ProjInv_push st _ [linked.id] [e.2.id] _ h ?_ ?_
        · intro x hx
          rw [create_linearId] at hx
          dsimp only [Option.map] at hx
          cases hx
          exact ⟨hcond.1, by simp⟩
        · intro y hy
          rw [create_gcalId] at hy
          dsimp only [Option.map] at hy
          cases hy
          exact ⟨hcond.2, by simp⟩
      · exact h

theorem projStep2_inv (g : Nat → String) (events : List GCalEvent)
    (now : Int) (st : ProjSt) (e : String × LinearIssue) (h : ProjInv st) :
    ProjInv (projStep2 g events now st e) := by
  unfold projStep2
  cases events.find? (fun ev => ev.id = e.1) with
  | none =>
      dsimp only
      by_cases hcond : e.2.id ∉ st.processedLinearIds
      · rw [if_pos hcond]
        have hp := ProjInv_push st
          (createCanonicalItem (g st.counter) (some e.2) none now)
          [e.2.id] [] (st.counter + 1) h
          (by
            intro x hx
            rw [create_linearId] at hx
            dsimp only [Option.map] at hx
            cases hx
            exact ⟨hcond, by simp⟩)
          (by
            intro y hy
            rw [create_gcalId] at hy
            dsimp only [Option.map] at hy
            cases hy)
        simpa using hp
      · rw [if_neg hcond]
        exact h
  | some linked =>
      dsimp only
      split_ifs with hcond
      · refine ProjInv_push st _ [e.2.id] [linked.id] _ h ?_ ?_
        · intro x hx
          rw [create_linearId] at hx
          dsimp only [Option.map] at hx
          cases hx
          exact ⟨hcond.1, by simp⟩
        · intro y hy
          rw [create_gcalId] at hy
          dsimp only [Option.map] at hy
          cases hy
          exact ⟨hcond.2, by simp⟩
      · exact h

theorem projStep3_inv (g : Nat → String) (now : Int) (st : ProjSt)
    (issue : LinearIssue) (h : ProjInv st) :
    ProjInv (projStep3 g now st issue) := by
  unfold projStep3
  by_cases hcond : issue.id ∉ st.processedLinearIds
  · rw [if_pos hcond]
    have hp := ProjInv_push st
      (createCanonicalItem (g st.counter) (some issue) none now)
      [issue.id] [] (st.counter + 1) h
      (by
        intro x hx
        rw [create_linearId] at hx
        dsimp only [Option.map] at hx
        cases hx
        exact ⟨hcond, by simp⟩)
      (by
        intro y hy
        rw [create_gcalId] at hy
        dsimp only [Option.map] at hy
        cases hy)
    simpa using hp
  · rw [if_neg hcond]
    exact h

theorem projStep4_inv (g : Nat → String) (now : Int) (st : ProjSt)
    (event : GCalEvent) (h : ProjInv st) :
    ProjInv (projStep4 g now st event) := by
  unfold projStep4
  by_cases hcond : event.id ∉ st.processedGCalIds
  · rw [if_pos hcond]
    have hp := ProjInv_push st
      (createCanonicalItem (freshOr g st.counter event.privUid).1
        none (some event) now)
      [] [event.id] (freshOr g st.counter event.privUid).2 h
      (by
        intro x hx
        rw [create_linearId] at hx
        dsimp only [Option.map] at hx
        cases hx)
      (by
        intro y hy
        rw [create_gcalId] at hy
        dsimp only [Option.map] at hy
        cases hy
        exact ⟨hcond, by simp⟩)
    simpa using hp
  · rw [if_neg hcond]
    exact h

/-- A property preserved by every step is preserved by the fold. -/
theorem foldl_inv {α σ : Type _} (P : σ → Prop) (f : σ → α → σ)
    (hf : ∀ s a, P s → P (f s a)) :
    ∀ (l : List α) (s : σ), P s → P (l.foldl f s)
  | [], s, h => h
  | a :: t, s, h => foldl_inv P f hf t (f s a) (hf s a h)

/-- C2: the canonical-item list returned by project is pairing-exclusive —
no two distinct items carry the same set linearId and no two distinct
items carry the same set gcalId, for every input and every uid stream. -/
theorem C2_pairing_exclusive (g : Nat → String)
    (linearIssues : List LinearIssue) (gcalEvents : List GCalEvent)
    (now : Int) :
    (project g linearIssues gcalEvents now).items.Pairwise pairExcl := by
  have h0 : ProjInv ⟨[], [], [], 0⟩ := ⟨by simp, by simp⟩
  have h1 := foldl_inv ProjInv (projStep1 g linearIssues now)
    (fun s a hs => projStep1_inv g linearIssues now s a hs)
    (buildGcalByLinearId gcalEvents) ⟨[], [], [], 0⟩ h0
  have h2 := foldl_inv ProjInv (projStep2 g gcalEvents now)
    (fun s a hs => projStep2_inv g gcalEvents now s a hs)
    (buildLinearByGCalId linearIssues) _ h1
  have h3 := foldl_inv ProjInv (projStep3 g now)
    (fun s a hs => projStep3_inv g now s a hs) linearIssues _ h2
  have h4 := foldl_inv ProjInv (projStep4 g now)
    (fun s a hs => projStep4_inv g now s a hs) gcalEvents _ h3
  unfold project
  dsimp only
  exact h4.2

/-! ## Determinism of project and diff modulo freshly drawn uids -/

/-- Blank out the uid field of a canonical item. -/
def eraseUid (it : CanonicalItem) : CanonicalItem :=
  { it with uid := "" }

/-- Replace the uid field of a canonical item. -/
def setUid (u : String) (it : CanonicalItem) : CanonicalItem :=
  { it with uid := u }

/-- Blank out the uid of the item embedded in an operation. -/
def eraseUidOp (op : Operation) : Operation :=
  ⟨op.type, eraseUid op.item, op.reason⟩

/-- The uid of an item influences only the uid of the items embedded in
the operations the diff engine emits for it. -/
theorem genOps_setUid (u : String) (a : CanonicalItem) (tz : String) :
    generateOperationsForItem (setUid u a) tz
      = (generateOperationsForItem a tz).map
          (fun op => ⟨op.type, setUid u op.item, op.reason⟩) := by
  obtain ⟨u0, t, d, st, et, dm, es, li, gi, ls, ph, lm, cg, cl⟩ := a
  cases ph with
  | eventOnly => rfl
  | linearOnly =>
      dsimp only [setUid, generateOperationsForItem]
      split_ifs <;> rfl
  | active =>
      dsimp only [setUid, generateOperationsForItem,
        generateMetadataSyncOperations]
      simp only [List.map_append]
      split_ifs <;> rfl
  | completed =>
      dsimp only [setUid, generateOperationsForItem]
      cases ls with
      | none =>
          dsimp only
          split_ifs <;> rfl
      | some s =>
          dsimp only
          split_ifs <;> rfl
  | overdue =>
      dsimp only [setUid, generateOperationsForItem]
      split_ifs <;> rfl

/-- Restoring the uid after blanking it reproduces the item. -/
theorem setUid_eraseUid (a : CanonicalItem) :
    setUid a.uid (eraseUid a) = a := by
  cases a
  rfl

/-- Erasing after setting the uid equals plain erasing. -/
theorem eraseUidOp_setUid (u : String) (op : Operation) :
    eraseUidOp ⟨op.type, setUid u op.item, op.reason⟩ = eraseUidOp op := by
  obtain ⟨t, it, r⟩ := op
  cases it
  rfl

/-- The erased operation list of an item depends only on its erased
form. -/
theorem genOps_map_eraseUid (a : CanonicalItem) (tz : String) :
    (generateOperationsForItem a tz).map eraseUidOp
      = (generateOperationsForItem (eraseUid a) tz).map eraseUidOp := by
  conv_lhs => rw [show a = setUid a.uid (eraseUid a) from
    (setUid_eraseUid a).symm]
  rw [genOps_setUid, List.map_map]
  have hf : eraseUidOp ∘
      (fun op => (⟨op.type, setUid a.uid op.item, op.reason⟩ : Operation))
      = eraseUidOp := by
    funext op
    exact eraseUidOp_setUid a.uid op
  rw [hf]

theorem genOps_congr {a b : CanonicalItem} (tz : String)
    (h : eraseUid a = eraseUid b) :
    (generateOperationsForItem a tz).map eraseUidOp
      = (generateOperationsForItem b tz).map eraseUidOp := by
  rw [genOps_map_eraseUid a, genOps_map_eraseUid b, h]

/-- diff is a congruence for item lists equal up to uids. -/
theorem diff_congr_eraseUid {items1 items2 : List CanonicalItem}
    (tz : String) (h : items1.map eraseUid = items2.map eraseUid) :
    (diff items1 tz).map eraseUidOp = (diff items2 tz).map eraseUidOp := by
  induction items1 generalizing items2 with
  | nil =>
      cases items2 with
      | nil => rfl
      | cons b t => exact absurd h (by simp)
  | cons a t ih =>
      cases items2 with
      | nil => exact absurd h (by simp)
      | cons b t2 =>
          simp only [List.map_cons, List.cons.injEq] at h
          obtain ⟨hab, ht⟩ := h
          show ((generateOperationsForItem a tz
              :: t.map (generateOperationsForItem · tz)).join).map eraseUidOp
            = ((generateOperationsForItem b tz
              :: t2.map (generateOperationsForItem · tz)).join).map eraseUidOp
          simp only [List.join, List.flatten_cons, List.map_append]
          rw [genOps_congr tz hab]
          have ht2 := ih ht
          simp only [diff] at ht2
          rw [ht2]

/-- Items created for the same entities and clock differ at most in their
uid, whatever uid was drawn. -/
theorem eraseUid_create (u v : String) (li : Option LinearIssue)
    (ge : Option GCalEvent) (now : Int) :
    eraseUid (createCanonicalItem u li ge now)
      = eraseUid (createCanonicalItem v li ge now) := rfl

/-- How far the counter advances never depends on the stream. -/
theorem freshOr_counter (g1 g2 : Nat → String) (c : Nat)
    (s : Option String) : (freshOr g1 c s).2 = (freshOr g2 c s).2 := by
  cases s with
  | none => rfl
  | some u =>
      by_cases h : u ≠ "" <;> simp [freshOr, h]

/-- Lockstep relation between two runs of project on different uid
streams: identical items up to uids, identical processed sets, identical
counters. -/
def ProjRel (st1 st2 : ProjSt) : Prop :=
  st1.items.map eraseUid = st2.items.map eraseUid
    ∧ st1.processedLinearIds = st2.processedLinearIds
    ∧ st1.processedGCalIds = st2.processedGCalIds
    ∧ st1.counter = st2.counter

theorem projStep1_rel (g1 g2 : Nat → String) (issues : List LinearIssue)
    (now : Int) (st1 st2 : ProjSt) (e : String × GCalEvent)
    (h : ProjRel st1 st2) :
    ProjRel (projStep1 g1 issues now st1 e)
      (projStep1 g2 issues now st2 e) := by
  obtain ⟨i1, pl1, pg1, c1⟩ := st1
  obtain ⟨i2, pl2, pg2, c2⟩ := st2
  obtain ⟨hi, hl, hg, hc⟩ := h
  dsimp only at hi hl hg hc
  subst hl; subst hg; subst hc
  unfold projStep1
  cases issues.find? (fun i => i.id = e.1) with
  | none => exact ⟨hi, rfl, rfl, rfl⟩
  | some linked =>
      dsimp only
      split_ifs with hcond
      · refine ⟨?_, rfl, rfl, freshOr_counter g1 g2 c1 e.2.privUid⟩
        simp only [List.map_append, List.map_cons, List.map_nil]
        rw [hi, eraseUid_create (freshOr g1 c1 e.2.privUid).1
          (freshOr g2 c1 e.2.privUid).1]
      · exact ⟨hi, rfl, rfl, rfl⟩

theorem projStep2_rel (g1 g2 : Nat → String) (events : List GCalEvent)
    (now : Int) (st1 st2 : ProjSt) (e : String × LinearIssue)
    (h : ProjRel st1 st2) :
    ProjRel (projStep2 g1 events now st1 e)
      (projStep2 g2 events now st2 e) := by
  obtain ⟨i1, pl1, pg1, c1⟩ := st1
  obtain ⟨i2, pl2, pg2, c2⟩ := st2
  obtain ⟨hi, hl, hg, hc⟩ := h
  dsimp only at hi hl hg hc
  subst hl; subst hg; subst hc
  unfold projStep2
  cases events.find? (fun ev => ev.id = e.1) with
  | none =>
      dsimp only
      by_cases hcond : e.2.id ∉ pl1
      · rw [if_pos hcond, if_pos hcond]
        refine ⟨?_, rfl, rfl, rfl⟩
        simp only [List.map_append, List.map_cons, List.map_nil]
        rw [hi, eraseUid_create (g1 c1) (g2 c1)]
      · rw [if_neg hcond, if_neg hcond]
        exact ⟨hi, rfl, rfl, rfl⟩
  | some linked =>
      dsimp only
      split_ifs with hcond
      · refine ⟨?_, rfl, rfl, freshOr_counter g1 g2 c1 linked.privUid⟩
        simp only [List.map_append, List.map_cons, List.map_nil]
        rw [hi, eraseUid_create (freshOr g1 c1 linked.privUid).1
          (freshOr g2 c1 linked.privUid).1]
      · exact ⟨hi, rfl, rfl, rfl⟩

theorem projStep3_rel (g1 g2 : Nat → String) (now : Int)
    (st1 st2 : ProjSt) (issue : LinearIssue) (h : ProjRel st1 st2) :
    ProjRel (projStep3 g1 now st1 issue) (projStep3 g2 now st2 issue) := by
  obtain ⟨i1, pl1, pg1, c1⟩ := st1
  obtain ⟨i2, pl2, pg2, c2⟩ := st2
  obtain ⟨hi, hl, hg, hc⟩ := h
  dsimp only at hi hl hg hc
  subst hl; subst hg; subst hc
  unfold projStep3
  by_cases hcond : issue.id ∉ pl1
  · rw [if_pos hcond, if_pos hcond]
    refine ⟨?_, rfl, rfl, rfl⟩
    simp only [List.map_append, List.map_cons, List.map_nil]
    rw [hi, eraseUid_create (g1 c1) (g2 c1)]
  · rw [if_neg hcond, if_neg hcond]
    exact ⟨hi, rfl, rfl, rfl⟩

theorem projStep4_rel (g1 g2 : Nat → String) (now : Int)
    (st1 st2 : ProjSt) (event : GCalEvent) (h : ProjRel st1 st2) :
    ProjRel (projStep4 g1 now st1 event) (projStep4 g2 now st2 event) := by
  obtain ⟨i1, pl1, pg1, c1⟩ := st1
  obtain ⟨i2, pl2, pg2, c2⟩ := st2
  obtain ⟨hi, hl, hg, hc⟩ := h
  dsimp only at hi hl hg hc
  subst hl; subst hg; subst hc
  unfold projStep4
  by_cases hcond : event.id ∉ pg1
  · rw [if_pos hcond, if_pos hcond]
    refine ⟨?_, rfl, rfl, freshOr_counter g1 g2 c1 event.privUid⟩
    simp only [List.map_append, List.map_cons, List.map_nil]
    rw [hi, eraseUid_create (freshOr g1 c1 event.privUid).1
      (freshOr g2 c1 event.privUid).1]
  · rw [if_neg hcond, if_neg hcond]
    exact ⟨hi, rfl, rfl, rfl⟩

/-- A relation preserved by paired steps is preserved by paired folds. -/
theorem foldl_rel {α σ : Type _} (R : σ → σ → Prop) (f1 f2 : σ → α → σ)
    (hf : ∀ s1 s2 a, R s1 s2 → R (f1 s1 a) (f2 s2 a)) :
    ∀ (l : List α) (s1 s2 : σ), R s1 s2 →
      R (l.foldl f1 s1) (l.foldl f2 s2)
  | [], _, _, h => h
  | a :: t, s1, s2, h =>
      foldl_rel R f1 f2 hf t (f1 s1 a) (f2 s2 a) (hf s1 s2 a h)

/-- The items of project are independent of the uid stream up to their uid
fields. -/
theorem project_items_eraseUid (g1 g2 : Nat → String)
    (linearIssues : List LinearIssue) (gcalEvents : List GCalEvent)
    (now : Int) :
    (project g1 linearIssues gcalEvents now).items.map eraseUid
      = (project g2 linearIssues gcalEvents now).items.map eraseUid := by
  have h0 : ProjRel ⟨[], [], [], 0⟩ ⟨[], [], [], 0⟩ := ⟨rfl, rfl, rfl, rfl⟩
  have h1 := foldl_rel ProjRel (projStep1 g1 linearIssues now)
    (projStep1 g2 linearIssues now)
    (fun s1 s2 a hs => projStep1_rel g1 g2 linearIssues now s1 s2 a hs)
    (buildGcalByLinearId gcalEvents) ⟨[], [], [], 0⟩ ⟨[], [], [], 0⟩ h0
  have h2 := foldl_rel ProjRel (projStep2 g1 gcalEvents now)
    (projStep2 g2 gcalEvents now)
    (fun s1 s2 a hs => projStep2_rel g1 g2 gcalEvents now s1 s2 a hs)
    (buildLinearByGCalId linearIssues) _ _ h1
  have h3 := foldl_rel ProjRel (projStep3 g1 now) (projStep3 g2 now)
    (fun s1 s2 a hs => projStep3_rel g1 g2 now s1 s2 a hs)
    linearIssues _ _ h2
  have h4 := foldl_rel ProjRel (projStep4 g1 now) (projStep4 g2 now)
    (fun s1 s2 a hs => projStep4_rel g1 g2 now s1 s2 a hs)
    gcalEvents _ _ h3
  unfold project
  dsimp only
  exact h4.1

/-- An unlinked issue, forcing a fresh uid draw. -/
def issueC1 : LinearIssue := ⟨"L1", "t", none, .Triage, none, none⟩

/-- C1 counterexample: the output of project is not byte-identical across
runs — the uid of an unlinked item is a fresh uuidv4 draw, so two runs
whose draws differ produce different canonical items. -/
theorem C1_counterexample :
    (project (fun _ => "a") [issueC1] [] 0).items
      ≠ (project (fun _ => "b") [issueC1] [] 0).items := by
  intro h
  have h1 : (project (fun _ => "a") [issueC1] [] 0).items.map
      (fun it => it.uid) = ["a"] := rfl
  have h2 : (project (fun _ => "b") [issueC1] [] 0).items.map
      (fun it => it.uid) = ["b"] := rfl
  rw [h] at h1
  rw [h2] at h1
  exact absurd h1 (by decide)

/-- C1: determinism holds up to the uuidv4 draws.  For a fixed pair of
snapshots and a fixed now, any two runs of project — modelled as two uid
streams — yield canonical items equal after blanking uids, and then diff
yields operations equal after blanking the uids of their embedded items;
only freshly drawn uids can differ between runs. -/
theorem C1_determinism_mod_uid (g1 g2 : Nat → String)
    (linearIssues : List LinearIssue) (gcalEvents : List GCalEvent)
    (now : Int) (tz : String) :
    (project g1 linearIssues gcalEvents now).items.map eraseUid
      = (project g2 linearIssues gcalEvents now).items.map eraseUid
    ∧ (diff (project g1 linearIssues gcalEvents now).items tz).map
          eraseUidOp
      = (diff (project g2 linearIssues gcalEvents now).items tz).map
          eraseUidOp := by
  have h := project_items_eraseUid g1 g2 linearIssues gcalEvents now
  exact ⟨h, diff_congr_eraseUid tz h⟩
end CalSync
